import Mathlib

/-!
Verification development for the markchecker service (src/main.py).

The definitions below are a shallow embedding of the term-resolution
pipeline: `parse_search_terms`, the resilient body decoder of
`fetch_product_data`, the regex fallback `extract_product_fields`,
`process_term`, and the streaming/non-streaming assembly in
`fetch_product` / `generate_response`.  Strings are modelled as lists of
characters, Python dicts as insertion-ordered association lists, machine
floats as exact rationals, and the regular expressions of the source as
explicit scanners over character lists.  ASCII input is assumed (the
source's regexes are used on ASCII product codes and JSON bodies).
-/

namespace Markchecker

/-- ASCII digit test, modelling the regex class \d on the ASCII inputs
this service handles. -/
def isDig (c : Char) : Bool := decide ('0' ≤ c) && decide (c ≤ '9')

/-- Python whitespace (str.strip / str.split with no argument). -/
def isPySpace (c : Char) : Bool :=
  c = ' ' || c = '\t' || c = '\n' || c = '\r' || c = '\x0b' || c = '\x0c'

/-- Word character for the regex boundary \b (ASCII model). -/
def isWordCh (c : Char) : Bool := c.isAlphanum || c = '_'

/-- Does `l` start with the pattern `pat`? -/
def startsWithL : List Char → List Char → Bool
  | [], _ => true
  | p :: ps, c :: cs => p = c && startsWithL ps cs
  | _ :: _, [] => false

/-- Substring containment, modelling Python's `pat in s`. -/
def containsSub (pat : List Char) : List Char → Bool
  | [] => startsWithL pat []
  | c :: cs => startsWithL pat (c :: cs) || containsSub pat cs

/-- Recursion core of the EA substitution, structurally recursive on a
fuel argument; one unit of fuel is spent per scanned position, and every
step consumes at least one character, so fuel `length + 1` is always
sufficient (the exhaustion arm is unreachable at the wrapper's fuel). -/
def subEAGo : Nat → List Char → List Char
  | 0, l => l
  | _ + 1, [] => []
  | fuel + 1, c :: cs =>
    if isDig c then
      match cs.dropWhile isDig with
      | 'E' :: 'A' :: r2 => (c :: cs.takeWhile isDig) ++ 'E' :: 'A' :: ' ' :: subEAGo fuel r2
      | rest => (c :: cs.takeWhile isDig) ++ subEAGo fuel rest
    else c :: subEAGo fuel cs

/-- `re.sub(r'(\d+EA)', r'\1 ', s)`: after every maximal run of digits that
is immediately followed by the literal `EA`, insert a space; scanning is
left to right and resumes after each replacement. -/
def subEA (l : List Char) : List Char := subEAGo (l.length + 1) l

/-- Right-boundary test for \b after the final `A` of a match. -/
def boundaryOk : List Char → Bool
  | [] => true
  | d :: _ => !isWordCh d

/-- Recursion core of the EA-code findall, fuelled like `subEAGo`. -/
def findallEAGo : Nat → Bool → List Char → List (List Char)
  | 0, _, _ => []
  | _ + 1, _, [] => []
  | fuel + 1, prev, c :: cs =>
    if !prev && isDig c then
      match cs.dropWhile isDig with
      | 'E' :: 'A' :: r2 =>
        if boundaryOk r2 then
          ((c :: cs.takeWhile isDig) ++ ['E', 'A']) :: findallEAGo fuel true r2
        else findallEAGo fuel (isWordCh c) cs
      | _ => findallEAGo fuel (isWordCh c) cs
    else findallEAGo fuel (isWordCh c) cs

/-- `re.findall(r'\b\d+EA\b', s)`: all matches of a digit run followed by
`EA` delimited by word boundaries; `prev` says whether the character just
before the current position is a word character. -/
def findallEA (prev : Bool) (l : List Char) : List (List Char) :=
  findallEAGo (l.length + 1) prev l

/-- `re.split(r'[,\n]', s)` (keeps empty pieces). -/
def splitCommaNl : List Char → List (List Char)
  | [] => [[]]
  | c :: cs =>
    if c = ',' || c = '\n' then [] :: splitCommaNl cs
    else
      match splitCommaNl cs with
      | [] => [[c]]
      | t :: ts => (c :: t) :: ts

/-- Recursion core of whitespace splitting, fuelled like `subEAGo`. -/
def pySplitWsGo : Nat → List Char → List (List Char)
  | 0, _ => []
  | _ + 1, [] => []
  | fuel + 1, c :: cs =>
    if isPySpace c then pySplitWsGo fuel cs
    else (c :: cs.takeWhile (fun d => !isPySpace d)) ::
      pySplitWsGo fuel (cs.dropWhile (fun d => !isPySpace d))

/-- Python `s.split()` with no argument: split on whitespace runs,
discarding empty pieces. -/
def pySplitWs (l : List Char) : List (List Char) := pySplitWsGo (l.length + 1) l

/-- Python `s.strip()`. -/
def pyStrip (l : List Char) : List Char :=
  ((l.dropWhile isPySpace).reverse.dropWhile isPySpace).reverse

/-- The dedup loop of `parse_search_terms`: `seen` is the set of terms
already encountered, encoded as a list used only through membership. -/
def pyDedupAux (seen : List String) : List String → List String
  | [] => []
  | t :: ts => if seen.contains t then pyDedupAux seen ts else t :: pyDedupAux (t :: seen) ts

def pyDedup (l : List String) : List String := pyDedupAux [] l

/-- First part of `parse_search_terms` (src/main.py lines 137-165): the EA
substitution pass, then the choice of splitting strategy; returns the raw
term pieces and the `contains_ea_codes` flag. -/
def parsePieces (s : String) : List (List Char) × Bool :=
  let l0 := s.toList
  let hasEA := containsSub ['E', 'A'] l0
  let l1 := if hasEA then subEA l0 else l0
  if l1.contains ',' || l1.contains '\n' then (splitCommaNl l1, hasEA)
  else
    let codes := findallEA false l1
    if codes.isEmpty then
      if 50 < l1.length then
        if l1.contains ' ' then (pySplitWs l1, hasEA) else ([l1], hasEA)
      else ([l1], hasEA)
    else (codes, true)

/-- The stripped, non-empty term pieces (src/main.py line 168). -/
def cleanedTerms (s : String) : List String :=
  (((parsePieces s).1.map pyStrip).filter (fun t => !t.isEmpty)).map List.asString

/-- `parse_search_terms(s)`: returns
`(unique_terms, duplicate_count, contains_ea_codes)`. -/
def parse_search_terms (s : String) : List String × Nat × Bool :=
  let c := cleanedTerms s
  let u := pyDedup c
  (u, c.length - u.length, (parsePieces s).2)

/-- Keep-first deduplication, stated independently of the source's
seen-set loop: keep each element's first occurrence, erase later ones. -/
def firstSeen : List String → List String
  | [] => []
  | x :: xs => x :: firstSeen (xs.filter (fun y => y ≠ x))
termination_by l => l.length
decreasing_by
  simp only [List.length_cons]
  exact Nat.lt_succ_of_le (List.filter_sublist _).length_le

/-- Spec-side coded-token test: the input contains a run of digits
immediately followed by the literal `EA` (the claim's notion of a
coded-token occurrence). -/
def hasDigitsEA : List Char → Bool
  | [] => false
  | c :: cs =>
    (isDig c && startsWithL ['E', 'A'] (cs.dropWhile isDig)) || hasDigitsEA cs

/-! ## JSON values

Python values that flow through the pipeline (parsed response fragments,
product dicts, the response document) are modelled as JSON values; Python
dicts keep insertion order, so objects are ordered association lists. -/

inductive Json where
  | null
  | bool (b : Bool)
  | num (n : Int)
  | str (s : String)
  | arr (elems : List Json)
  | obj (fields : List (String × Json))

/-- A Python dict with string keys and JSON-like values, in insertion
order. -/
abbrev Dict := List (String × Json)

/-- `d[k] = v` in Python: replace in place if the key exists, else append. -/
def listSet {α : Type} (d : List (String × α)) (k : String) (v : α) : List (String × α) :=
  if d.any (fun p => p.1 == k) then d.map (fun p => if p.1 == k then (k, v) else p)
  else d ++ [(k, v)]

/-- First binding of `k`, i.e. Python `d.get(k)` as an option. -/
def dictGet? (d : Dict) (k : String) : Option Json :=
  (d.find? (fun p => p.1 == k)).map (fun p => p.2)

/-- Python `d.get(k)` (absent keys give None). -/
def dictGet (d : Dict) (k : String) : Json := (dictGet? d k).getD .null

/-- Python `d.get(k, default)`. -/
def dictGetD (d : Dict) (k : String) (v : Json) : Json := (dictGet? d k).getD v

/-- Last binding of `k`: the value `json.loads` would give a document with
duplicate keys (later keys win). -/
def dictGetLast? (d : Dict) (k : String) : Option Json :=
  (d.reverse.find? (fun p => p.1 == k)).map (fun p => p.2)

/-- Python truthiness of a JSON-shaped value. -/
def pyTruthy : Json → Bool
  | .null => false
  | .bool b => b
  | .num n => n != 0
  | .str s => !s.isEmpty
  | .arr es => !es.isEmpty
  | .obj fs => !fs.isEmpty

/-- The string-escape step of `json.dumps` for one character (the common
escapes; other characters are kept verbatim — ASCII printable payloads). -/
def escChar (c : Char) : List Char :=
  if c = '"' then ['\\', '"']
  else if c = '\\' then ['\\', '\\']
  else if c = '\n' then ['\\', 'n']
  else if c = '\t' then ['\\', 't']
  else if c = '\r' then ['\\', 'r']
  else [c]

def escape : List Char → List Char
  | [] => []
  | c :: cs => escChar c ++ escape cs

mutual

/-- `json.dumps` with its default separators `", "` and `": "`, producing
characters. -/
def renderCh : Json → List Char
  | .null => "null".toList
  | .bool true => "true".toList
  | .bool false => "false".toList
  | .num n => (toString n).toList
  | .str s => '"' :: (escape s.toList ++ ['"'])
  | .arr es => '[' :: (renderElems es ++ [']'])
  | .obj fs => '\x7b' :: (renderMembers fs ++ ['\x7d'])

def renderElems : List Json → List Char
  | [] => []
  | [e] => renderCh e
  | e :: es => renderCh e ++ ',' :: ' ' :: renderElems es

def renderMembers : List (String × Json) → List Char
  | [] => []
  | [(k, v)] => '"' :: (escape k.toList ++ '"' :: ':' :: ' ' :: renderCh v)
  | (k, v) :: fs =>
    '"' :: (escape k.toList ++ '"' :: ':' :: ' ' :: renderCh v) ++ ',' :: ' ' :: renderMembers fs

end

/-! ## A JSON grammar fragment

`JVal v l` says the character list `l` is a serialization of the JSON
value `v` under (a sound fragment of) the JSON grammar: whitespace is
permitted after separators, strings use the escape set of the serializer
above with other characters verbatim, numbers are in the canonical
integer form.  It is the document-level comparator for the claim that a
streamed response parses as a single JSON document. -/

/-- One source character and its occurrence in JSON string literal text. -/
inductive EscCh : Char → List Char → Prop
  | lit (c : Char) : c ≠ '"' → c ≠ '\\' → EscCh c [c]
  | quote : EscCh '"' ['\\', '"']
  | bslash : EscCh '\\' ['\\', '\\']
  | nl : EscCh '\n' ['\\', 'n']
  | tab : EscCh '\t' ['\\', 't']
  | cr : EscCh '\r' ['\\', 'r']

inductive EscStr : List Char → List Char → Prop
  | nil : EscStr [] []
  | cons {c : Char} {e cs es : List Char} :
      EscCh c e → EscStr cs es → EscStr (c :: cs) (e ++ es)

def isJsonWs (c : Char) : Bool := c = ' ' || c = '\t' || c = '\n' || c = '\r'

mutual

inductive JVal : Json → List Char → Prop
  | null : JVal .null ['n', 'u', 'l', 'l']
  | tt : JVal (.bool true) ['t', 'r', 'u', 'e']
  | ff : JVal (.bool false) ['f', 'a', 'l', 's', 'e']
  | num (n : Int) : JVal (.num n) (toString n).toList
  | str (s : String) (es : List Char) : EscStr s.toList es →
      JVal (.str s) ('"' :: (es ++ ['"']))
  | arrNil : JVal (.arr []) ['[', ']']
  | arrCons (es : List Json) (l : List Char) : JElems es l →
      JVal (.arr es) ('[' :: (l ++ [']']))
  | objNil : JVal (.obj []) ['\x7b', '\x7d']
  | objCons (fs : List (String × Json)) (l : List Char) : JMembers fs l →
      JVal (.obj fs) ('\x7b' :: (l ++ ['\x7d']))

inductive JElems : List Json → List Char → Prop
  | single (v : Json) (l : List Char) : JVal v l → JElems [v] l
  | cons (v : Json) (l w : List Char) (vs : List Json) (r : List Char) :
      JVal v l → (∀ c ∈ w, isJsonWs c) → JElems vs r →
      JElems (v :: vs) (l ++ ',' :: (w ++ r))

inductive JMembers : List (String × Json) → List Char → Prop
  | single (k : String) (v : Json) (es w l : List Char) :
      EscStr k.toList es → (∀ c ∈ w, isJsonWs c) → JVal v l →
      JMembers [(k, v)] ('"' :: (es ++ '"' :: ':' :: (w ++ l)))
  | cons (k : String) (v : Json) (es w l w2 : List Char)
      (fs : List (String × Json)) (r : List Char) :
      EscStr k.toList es → (∀ c ∈ w, isJsonWs c) → JVal v l →
      (∀ c ∈ w2, isJsonWs c) → JMembers fs r →
      JMembers ((k, v) :: fs) ('"' :: (es ++ '"' :: ':' :: (w ++ l)) ++ ',' :: (w2 ++ r))

end

/-! ## Regex scanners

The regular expressions of `fetch_product_data` / `extract_product_fields`
are embedded as explicit scanners.  `re.search` tries every start
position from the left; each `matchX` function attempts the pattern at
the start of its input. -/

/-- Strip a literal pattern: `some rest` iff the input is `pat ++ rest`. -/
def dropLit : List Char → List Char → Option (List Char)
  | [], l => some l
  | _ :: _, [] => none
  | p :: ps, c :: cs => if p = c then dropLit ps cs else none

/-- Match `"KEY"\s*:\s*"([^"]+)"` at the start of the input; returns the
capture and the suffix after the closing quote. -/
def matchKeyStr (key : List Char) (l : List Char) : Option (List Char × List Char) :=
  match dropLit ('"' :: (key ++ ['"'])) l with
  | none => none
  | some r1 =>
    match r1.dropWhile isPySpace with
    | ':' :: r3 =>
      match r3.dropWhile isPySpace with
      | '"' :: r5 =>
        let cap := r5.takeWhile (fun c => c ≠ '"')
        match r5.dropWhile (fun c => c ≠ '"') with
        | '"' :: r6 => if cap.isEmpty then none else some (cap, r6)
        | _ => none
      | _ => none
    | _ => none

/-- `re.search`: try the matcher at every start position, leftmost wins. -/
def scanFor {α : Type} (m : List Char → Option α) : List Char → Option α
  | [] => m []
  | c :: cs =>
    match m (c :: cs) with
    | some a => some a
    | none => scanFor m cs

/-- `re.search(r'"KEY"\s*:\s*"([^"]+)"', l)`, capture only. -/
def findKeyStr (key : List Char) (l : List Char) : Option (List Char) :=
  (scanFor (matchKeyStr key) l).map (fun p => p.1)

/-- Match `"available"\s*:\s*(true|false)` at the start of the input. -/
def matchAvailBool (l : List Char) : Option Bool :=
  match dropLit ('"' :: ("available".toList ++ ['"'])) l with
  | none => none
  | some r1 =>
    match r1.dropWhile isPySpace with
    | ':' :: r3 =>
      let r4 := r3.dropWhile isPySpace
      match dropLit "true".toList r4 with
      | some _ => some true
      | none =>
        match dropLit "false".toList r4 with
        | some _ => some false
        | none => none
    | _ => none

/-- The greedy `[^}]*` of the current-price pattern: within the maximal
run of non-`}` characters, take the last position at which the
`"amount"\s*:\s*"([^"]+)"` tail matches. -/
def lastAmountIn : List Char → Option (List Char)
  | [] => none
  | c :: cs =>
    if c = '\x7d' then none
    else
      match lastAmountIn cs with
      | some cap => some cap
      | none => (matchKeyStr "amount".toList (c :: cs)).map (fun p => p.1)

/-- Match `"current"\s*:\s*{[^}]*"amount"\s*:\s*"([^"]+)"` at the start
of the input. -/
def matchCurrentAmount (l : List Char) : Option (List Char) :=
  match dropLit ('"' :: ("current".toList ++ ['"'])) l with
  | none => none
  | some r1 =>
    match r1.dropWhile isPySpace with
    | ':' :: r3 =>
      match r3.dropWhile isPySpace with
      | '\x7b' :: r5 => lastAmountIn r5
      | _ => none
    | _ => none

/-- `extract_product_fields(product_json, product_id)` (src/main.py lines
308-363): regex recovery of essential fields when strict JSON parsing of
an isolated product fragment fails. -/
def extract_product_fields (product_json : List Char) (product_id : String) : Option Dict :=
  let clean_id := if product_id.startsWith "retailer_" then (product_id.drop 9) else product_id
  let product : Dict :=
    [("productId", .str clean_id), ("retailerProductId", .null), ("name", .null),
     ("available", .bool true), ("brand", .null), ("categoryPath", .arr []),
     ("price", .obj [("current", .obj [("amount", .null), ("currency", .str "CAD")])])]
  let product := match findKeyStr "retailerProductId".toList product_json with
    | some cap => listSet product "retailerProductId" (.str cap.asString)
    | none => product
  let product := match findKeyStr "name".toList product_json with
    | some cap => listSet product "name" (.str cap.asString)
    | none => product
  let product := match findKeyStr "brand".toList product_json with
    | some cap => listSet product "brand" (.str cap.asString)
    | none => product
  let product := match scanFor matchAvailBool product_json with
    | some b => listSet product "available" (.bool b)
    | none => product
  let product := match scanFor matchCurrentAmount product_json with
    | some cap =>
      listSet product "price"
        (.obj [("current", .obj [("amount", .str cap.asString), ("currency", .str "CAD")])])
    | none => product
  let product := match findKeyStr "src".toList product_json with
    | some cap => listSet product "image" (.obj [("src", .str cap.asString)])
    | none => product
  some product

/-! ## The resilient body decoder of `fetch_product_data`

`fetch_product_data` (src/main.py lines 186-306) never parses the whole
response body; it regex-collects product identifiers, brace-matches the
enclosing object of each, and strict-parses only that substring, with a
regex fallback and finally placeholder synthesis.  The strict parser
`json.loads` is abstracted as a parameter that may fail in two ways:
`malformed` (JSONDecodeError, caught by the inner handler) and `tooDeep`
(RecursionError on deep nesting, which escapes the inner handler and is
caught by the function-level handler).  Identifier interpolation into the
search regex is modelled as literal-occurrence search. -/

inductive DecodeErr where
  | malformed
  | tooDeep

/-- A decoded catalog fragment: product identifier to product object, in
discovery order (a Python dict). -/
abbrev Frag := List (String × Dict)

/-- `re.finditer(r'"KEY"\s*:\s*"([^"]+)"', l)`: all captures, with
scanning resuming after each match (non-overlapping matches). -/
def finditerKeyStr (key : List Char) : List Char → List (List Char)
  | [] => []
  | c :: cs =>
    match h : matchKeyStr key (c :: cs) with
    | some capRest => capRest.1 :: finditerKeyStr key capRest.2
    | none => finditerKeyStr key cs
termination_by l => l.length
decreasing_by
  · have hdl : ∀ (p l r : List Char), dropLit p l = some r → r.length ≤ l.length := by
      intro p
      induction p with
      | nil =>
        intro l r hr
        simp only [dropLit, Option.some.injEq] at hr
        simp [hr]
      | cons x xs ih =>
        intro l r hr
        cases l with
        | nil => simp [dropLit] at hr
        | cons y ys =>
          simp only [dropLit] at hr
          split at hr
          · exact Nat.le_succ_of_le (ih ys r hr)
          · simp at hr
    simp only [matchKeyStr] at h
    split at h
    · simp at h
    · next r1 hr1 =>
      split at h
      · next r3 hr3 =>
        split at h
        · next r5 hr5 =>
          split at h
          · next r6 hr6 =>
            split at h
            · simp at h
            · cases h
              have l1 : r1.length ≤ cs.length + 1 := by simpa using hdl _ _ _ hr1
              have l3 : r3.length + 1 ≤ r1.length := by
                have hs := (List.dropWhile_sublist (l := r1) isPySpace).length_le
                rw [hr3] at hs
                simpa using hs
              have l5 : r5.length + 1 ≤ r3.length := by
                have hs := (List.dropWhile_sublist (l := r3) isPySpace).length_le
                rw [hr5] at hs
                simpa using hs
              have l6 : r6.length + 1 ≤ r5.length := by
                have hs := (List.dropWhile_sublist (l := r5) (fun c => c ≠ '"')).length_le
                rw [hr6] at hs
                simpa using hs
              simp only [List.length_cons]
              omega
          · simp at h
        · simp at h
      · simp at h
  · simp

/-- Match of the f-string pattern `"KEY"\s*:\s*"ID"` at the start of the
input (the id is interpolated literally). -/
def matchIdAt (key idv : List Char) (l : List Char) : Bool :=
  match dropLit ('"' :: (key ++ ['"'])) l with
  | none => false
  | some r1 =>
    match r1.dropWhile isPySpace with
    | ':' :: r3 =>
      match r3.dropWhile isPySpace with
      | '"' :: r5 => (dropLit (idv ++ ['"']) r5).isSome
      | _ => false
    | _ => false

/-- Index of the leftmost position at which `p` matches. -/
def findMatchIdx (p : List Char → Bool) : List Char → Option Nat
  | [] => none
  | c :: cs => if p (c :: cs) then some 0 else (findMatchIdx p cs).map (fun i => i + 1)

/-- `l.rfind(ch)` restricted to a prefix: index of the last occurrence. -/
def lastIdxOf (ch : Char) : List Char → Option Nat
  | [] => none
  | x :: xs =>
    match lastIdxOf ch xs with
    | some i => some (i + 1)
    | none => if x = ch then some 0 else none

/-- The brace-counting loop (src/main.py lines 253-261): starting just
after an opening brace with count `k`, take characters up to and
including the brace that brings the count to zero. -/
def braceTake : Nat → List Char → Option (List Char)
  | _, [] => none
  | k, c :: cs =>
    let k2 := if c = '\x7b' then k + 1 else if c = '\x7d' then k - 1 else k
    if k2 = 0 then some [c]
    else (braceTake k2 cs).map (fun t => c :: t)

/-- The minimal placeholder product synthesized when identifiers were
found but no fragment could be decoded (src/main.py lines 286-293); note
the source stores the search term as `retailerProductId`. -/
def placeholderProduct (clean_id term : String) : Dict :=
  [("productId", .str clean_id), ("retailerProductId", .str term),
   ("name", .str ("Product " ++ clean_id)), ("available", .bool true)]

def cleanPid (pid : String) : String :=
  if pid.startsWith "retailer_" then pid.drop 9 else pid

def idSearchKey (pid : String) : List Char :=
  if pid.startsWith "retailer_" then "retailerProductId".toList else "productId".toList

/-- The per-identifier loop body (src/main.py lines 242-280): locate the
id, brace-match its enclosing object, strict-parse that substring; on a
malformed-parse failure fall back to regex field extraction.  A too-deep
failure escapes (it is not a JSONDecodeError). -/
def processPid (jsonLoads : List Char → Except DecodeErr Dict) (body : List Char)
    (acc : Frag) (pid : String) : Except DecodeErr Frag :=
  match findMatchIdx (matchIdAt (idSearchKey pid) (cleanPid pid).toList) body with
  | none => .ok acc
  | some idx =>
    match lastIdxOf '\x7b' (body.take idx) with
    | none => .ok acc
    | some os =>
      match body.drop os with
      | '\x7b' :: afterBrace =>
        match braceTake 1 afterBrace with
        | none => .ok acc
        | some inner =>
          let pjson := '\x7b' :: inner
          match jsonLoads pjson with
          | .ok pdata =>
            let actual_id :=
              if pid.startsWith "retailer_" then
                match dictGet? pdata "productId" with
                | some (.str s) => s
                | _ => pid
              else pid
            .ok (listSet acc actual_id pdata)
          | .error .malformed =>
            match extract_product_fields pjson pid with
            | some fb => .ok (listSet acc pid fb)
            | none => .ok acc
          | .error .tooDeep => .error .tooDeep
      | _ => .ok acc

/-- The decode section of `fetch_product_data` for a 2xx body
(src/main.py lines 214-295), with the strict parser abstracted. -/
def fetch_decode_core (jsonLoads : List Char → Except DecodeErr Dict) (term : String)
    (body : List Char) : Except DecodeErr Frag :=
  if !containsSub ('"' :: ("productId".toList ++ ['"'])) body &&
     !containsSub ('"' :: ("retailerProductId".toList ++ ['"'])) body then .ok []
  else do
    let pids0 := (finditerKeyStr "productId".toList body).map List.asString
    let pids := if pids0.isEmpty then
        (finditerKeyStr "retailerProductId".toList body).map
          (fun c => "retailer_" ++ c.asString)
      else pids0
    let result ← pids.foldlM (processPid jsonLoads body) []
    if result.isEmpty && !pids.isEmpty then
      .ok (pids.foldl
        (fun acc pid => listSet acc (cleanPid pid) (placeholderProduct (cleanPid pid) term)) [])
    else .ok result

/-- `fetch_product_data` restricted to a 200 response with the given
body: the function-level handlers map RecursionError to the empty
entities structure and any other exception to None (src/main.py lines
297-306). -/
def fetch_product_data_2xx (jsonLoads : List Char → Except DecodeErr Dict) (term : String)
    (body : List Char) : Option Frag :=
  match fetch_decode_core jsonLoads term body with
  | .ok f => some f
  | .error .tooDeep => some []
  | .error .malformed => none

/-! ## `process_term`

src/main.py lines 364-533.  The fetch result is `none` for a failed
fetch (non-2xx, timeout, transport error) and `some frag` otherwise.
The result limit is the JSON value of the request's `limit` field. -/

inductive LimitV where
  | strV (s : String)
  | intV (n : Int)
  | noneV
  | otherV
deriving DecidableEq

def digitsVal : List Char → Nat :=
  List.foldl (fun acc c => 10 * acc + (Char.toNat c - Char.toNat '0')) 0

/-- Python `int(s)` on a string: optional surrounding whitespace, an
optional sign, then digits (numeric-underscore forms are outside the
model). -/
def pyInt? (s : String) : Option Int :=
  let l := pyStrip s.toList
  let signDs : Int × List Char :=
    match l with
    | '-' :: rest => (-1, rest)
    | '+' :: rest => (1, rest)
    | _ => (1, l)
  if signDs.2.isEmpty || !signDs.2.all isDig then none
  else some (signDs.1 * (digitsVal signDs.2 : Int))

/-- Python `lst[:n]` with an integer bound (negative bounds count from
the end, clamped at zero). -/
def pySliceTo {α : Type} (l : List α) (n : Int) : List α :=
  if 0 ≤ n then l.take n.toNat else l.take (l.length - (-n).toNat)

/-- The limit-application step (src/main.py lines 392-400): the selected
keys, or `.error` for the path where `product_keys` is left as a
`dict_keys` view and the later subscript `product_keys[0]` raises
TypeError (only reachable when the view is non-empty, i.e. truthy). -/
def selectKeys (keys : List String) (limit : LimitV) : Except Unit (List String) :=
  if limit = .strV "all" then .ok (keys.take 1)
  else
    match limit with
    | .strV s =>
      match pyInt? s with
      | some n => .ok (pySliceTo keys n)
      | none => if keys.isEmpty then .ok [] else .error ()
    | .intV n => .ok (pySliceTo keys n)
    | .noneV => .ok keys
    | .otherV => if keys.isEmpty then .ok [] else .error ()

/-- Python `float(x)` for the values that can sit in a price field,
producing an exact rational; strings use plain decimal forms (scientific
notation, inf and nan are outside the model, as are floats' rounding
errors — prices are exact decimals). -/
def parseDecBody (l1 : List Char) : Option ℚ :=
  let ip := l1.takeWhile isDig
  match l1.dropWhile isDig with
  | [] => if ip.isEmpty then none else some ((digitsVal ip : ℚ))
  | '.' :: fp0 =>
    let fp := fp0.takeWhile isDig
    if !(fp0.dropWhile isDig).isEmpty then none
    else if ip.isEmpty && fp.isEmpty then none
    else some ((digitsVal ip : ℚ) + (digitsVal fp : ℚ) / ((10 : ℚ) ^ fp.length))
  | _ => none

def parseDec (s : String) : Option ℚ :=
  match pyStrip s.toList with
  | '-' :: r => (parseDecBody r).map (fun q => -q)
  | '+' :: r => parseDecBody r
  | l => parseDecBody l

def pyFloat? : Json → Option ℚ
  | .num n => some (n : ℚ)
  | .bool b => some (if b then 1 else 0)
  | .str s => parseDec s
  | _ => none

/-- Python 3 `round(q)` with one argument: round half to even, stated on
the reduced numerator and denominator (`r2` is `2 * den * fract q`, so
comparing it with `den` compares the fractional part with one half). -/
def roundHalfEven (q : ℚ) : Int :=
  if 2 * (q.num - Rat.floor q * (q.den : Int)) < (q.den : Int) then Rat.floor q
  else if (q.den : Int) < 2 * (q.num - Rat.floor q * (q.den : Int)) then Rat.floor q + 1
  else if Rat.floor q % 2 = 0 then Rat.floor q else Rat.floor q + 1

def Json.isNull : Json → Bool
  | .null => true
  | _ => false

/-- `" > ".join` raises TypeError on non-string elements. -/
def asStrAll : List Json → Except Unit (List String)
  | [] => .ok []
  | .str s :: rest => do
    let r ← asStrAll rest
    .ok (s :: r)
  | _ :: _ => .error ()

def strJoin (sep : String) : List String → String
  | [] => ""
  | x :: xs => xs.foldl (fun a b => a ++ sep ++ b) x

/-- The price-handling block of `process_term` (src/main.py lines
432-464).  The only uncaught failure is ZeroDivisionError from the
discount division (the inline handler catches only ValueError and
TypeError). -/
def addPriceFields (info0 : Dict) (product : Dict) : Except Unit Dict :=
  match dictGet? product "price" with
  | some (.obj priceInfo) => do
    let info1 :=
      match dictGet? priceInfo "current" with
      | some (.obj cur) =>
        listSet (listSet info0 "currentPrice" (dictGet cur "amount")) "currency"
          (dictGetD cur "currency" (.str "CAD"))
      | _ => info0
    let info2 ←
      match dictGet? priceInfo "original" with
      | some (.obj org) => do
        let infoA := listSet info1 "originalPrice" (dictGet org "amount")
        match dictGet? infoA "currentPrice", dictGet? infoA "originalPrice" with
        | some cp, some op =>
          if !cp.isNull && !op.isNull then
            match pyFloat? cp, pyFloat? op with
            | some c, some o =>
              if c < o then
                if o = 0 then .error ()
                else pure (listSet infoA "discountPercentage"
                  (.num (roundHalfEven ((o - c) / o * 100))))
              else pure infoA
            | _, _ => pure infoA
          else pure infoA
        | _, _ => pure infoA
      | _ => pure info1
    let info3 :=
      match dictGet? priceInfo "unit" with
      | some (.obj u) =>
        let iA :=
          match dictGet? u "current" with
          | some (.obj uc) => listSet info2 "unitPrice" (dictGet uc "amount")
          | _ => info2
        listSet iA "unitLabel" (dictGet u "label")
      | _ => info2
    pure info3
  | _ => pure info0

/-- The happy-path extraction block of `process_term` (src/main.py lines
408-473); errors escaping it hit the function-level handler.  (The inner
RecursionError handler of lines 475-489 is unreachable in the model,
which has no recursion limit.) -/
def buildProductInfo (term : String) (product : Dict) : Except Unit Dict := do
  let info : Dict :=
    [("found", .bool true), ("searchTerm", .str term),
     ("productId", dictGet product "productId"),
     ("retailerProductId", dictGet product "retailerProductId"),
     ("name", dictGet product "name"),
     ("brand", dictGet product "brand"),
     ("available", dictGetD product "available" (.bool false)),
     ("imageUrl", .null), ("currency", .str "CAD")]
  let info :=
    match dictGet? product "image" with
    | some (.obj img) => listSet info "imageUrl" (dictGet img "src")
    | _ => info
  let info ←
    match dictGet? product "categoryPath" with
    | some (.arr cats) => do
      let strs ← asStrAll cats
      pure (listSet info "category" (.str (strJoin " > " strs)))
    | _ => pure (listSet info "category" (.str ""))
  let info ← addPriceFields info product
  let info :=
    match dictGet? product "offers" with
    | some (.arr offs) => listSet info "offers" (.arr (offs.take 5))
    | _ => info
  let info :=
    match dictGet? product "offer" with
    | some v => listSet info "primaryOffer" v
    | none => info
  pure info

/-- The not-found record of src/main.py lines 372-383 / 492-503. -/
def notFoundRecord (term : String) : Dict :=
  [("found", .bool false), ("searchTerm", .str term), ("productId", .null),
   ("retailerProductId", .null), ("name", .str ("Article Not Found: " ++ term)),
   ("brand", .null), ("available", .bool false), ("category", .str ""),
   ("imageUrl", .null),
   ("notFoundMessage", .str ("The article \"" ++ term ++
     "\" was not found. It may not be published yet or could be a typo."))]

/-- The record returned by the function-level exception handler of
`process_term` (src/main.py lines 519-533). -/
def errorRecord (term : String) : Dict :=
  [("found", .bool false), ("searchTerm", .str term), ("productId", .null),
   ("retailerProductId", .null), ("name", .str ("Article Not Found: " ++ term)),
   ("brand", .null), ("available", .bool false), ("category", .str ""),
   ("imageUrl", .null),
   ("notFoundMessage", .str "Error processing the article. Please try again.")]

def listGet? {α : Type} (d : List (String × α)) (k : String) : Option α :=
  (d.find? (fun p => p.1 == k)).map (fun p => p.2)

/-- The body of `process_term` up to its function-level handler. -/
def process_term_core (term : String) (fetched : Option Frag) (limit : LimitV) :
    Except Unit (Dict × Nat) :=
  match fetched with
  | none => .ok (notFoundRecord term, 0)
  | some frag =>
    if frag.isEmpty then .ok (notFoundRecord term, 0)
    else do
      let sel ← selectKeys (frag.map (fun p => p.1)) limit
      match sel with
      | [] => .ok (notFoundRecord term, 0)
      | k :: _ => do
        let product := (listGet? frag k).getD []
        let info ← buildProductInfo term product
        .ok (info, frag.length)

/-- `process_term(term, session_id, limit)` given the fetch result:
always exactly one `(record, matchCount)` pair. -/
def process_term (term : String) (fetched : Option Frag) (limit : LimitV) : Dict × Nat :=
  match process_term_core term fetched limit with
  | .ok r => r
  | .error _ => (errorRecord term, 0)

/-! ## The batch scheduler and stream assembler

src/main.py lines 535-741.  Worker completion order inside a batch is
nondeterministic, so the model takes a schedule: for each batch (a list
of terms) it yields the completed `(term, result)` pairs in completion
order, where a result is `.ok` of the pair `process_term` returned or
`.error` if retrieving the future's result raised. -/

abbrev TermResult := Except Unit (Dict × Nat)

abbrev Sched := List String → List (String × TermResult)

/-- Final value of BATCH_SIZE (src/main.py line 25; line 15's value 10 is
overwritten). -/
def BATCH_SIZE : Nat := 20

/-- The streaming threshold of src/main.py line 569. -/
def STREAM_THRESHOLD : Nat := 30

def totalBatches (n : Nat) : Nat := (n + BATCH_SIZE - 1) / BATCH_SIZE

/-- Recursion core of batching, fuelled like `subEAGo` (each step
consumes at least one term). -/
def chunks20Go : Nat → List String → List (List String)
  | 0, _ => []
  | _ + 1, [] => []
  | fuel + 1, c :: cs => ((c :: cs).take BATCH_SIZE) :: chunks20Go fuel ((c :: cs).drop BATCH_SIZE)

/-- `individual_terms[i:i+BATCH_SIZE]` batching (src/main.py line 594). -/
def chunks20 (l : List String) : List (List String) := chunks20Go (l.length + 1) l

structure RunParams where
  regionNameJ : Json
  regionInfoJ : Json
  searchTerm : String
  terms : List String
  dupCount : Nat
  eaFlag : Bool

/-- The opening fragment of the streamed response (src/main.py lines
579-588): echo fields, a static processing status, and the opening of
the products array. -/
def headerFrag (p : RunParams) : List Char :=
  '\x7b' :: ("\"region_name\": ".toList ++ renderCh p.regionNameJ ++
    ", \"region_info\": ".toList ++ renderCh p.regionInfoJ ++
    ", \"search_term\": ".toList ++ renderCh (.str p.searchTerm) ++
    ", \"parsed_terms\": ".toList ++ renderCh (.arr (p.terms.map .str)) ++
    ", \"duplicate_count\": ".toList ++ (toString p.dupCount).toList ++
    ", \"contains_ea_codes\": ".toList ++ renderCh (.bool p.eaFlag) ++
    ", \"status\": \"processing\", \"total_terms\": ".toList ++
    (toString p.terms.length).toList ++
    ", \"total_batches\": ".toList ++ (toString (totalBatches p.terms.length)).toList ++
    ", \"products\": [".toList)

/-- The terminal fragment (src/main.py lines 669-672). -/
def footerFrag (tf pc : Nat) : List Char :=
  "], \"total_found\": ".toList ++ (toString tf).toList ++
  ", \"total_processed\": ".toList ++ (toString pc).toList ++
  ", \"status\": \"completed\"".toList ++ ['\x7d']

/-- What one completed future contributes in the streaming loop: on
success the pair from `process_term`; on a raised future the not-found
entry of src/main.py lines 630-641 (same record as `notFoundRecord`)
with no contribution to `total_found`. -/
def streamOutcome : String × TermResult → Dict × Nat
  | (_, .ok r) => r
  | (t, .error _) => (notFoundRecord t, 0)

/-- The emission loop over one batch's completions: yields a comma before
every product except the first of the whole stream, then the product
JSON; returns the fragments and the batch's found count. -/
def emitItems : Bool → List (String × TermResult) → List (List Char) × Nat
  | _, [] => ([], 0)
  | first, it :: rest =>
    let r := streamOutcome it
    let tail := emitItems false rest
    ((if first then [] else [[',']]) ++ renderCh (.obj r.1) :: tail.1, r.2 + tail.2)

/-- The batch loop (src/main.py lines 594-666): batches strictly in
sequence, threading the first-product flag and the counters. -/
def emitBatches (sched : Sched) : Bool → List (List String) → List (List Char) × Nat × Nat
  | _, [] => ([], 0, 0)
  | first, b :: bs =>
    let items := sched b
    let this := emitItems first items
    let rest := emitBatches sched (first && items.isEmpty) bs
    (this.1 ++ rest.1, this.2 + rest.2.1, items.length + rest.2.2)

/-- `generate_response` (src/main.py lines 571-672): the emitted text
fragments, in order. -/
def generate_response (p : RunParams) (sched : Sched) : List (List Char) :=
  let r := emitBatches sched true (chunks20 p.terms)
  headerFrag p :: (r.1 ++ [footerFrag r.2.1 r.2.2])

/-- All completions of a run, across batches in order. -/
def flatSched (p : RunParams) (sched : Sched) : List (String × TermResult) :=
  ((chunks20 p.terms).map sched).flatten

def streamRecords (p : RunParams) (sched : Sched) : List Dict :=
  (flatSched p sched).map (fun it => (streamOutcome it).1)

def streamFoundTotal (p : RunParams) (sched : Sched) : Nat :=
  ((flatSched p sched).map (fun it => (streamOutcome it).2)).sum

/-- The JSON document the concatenated stream serializes (note the
duplicate `status` member: the opening fragment writes "processing", the
terminal fragment writes "completed"; under `json.loads` the later key
wins). -/
def streamDocFields (p : RunParams) (sched : Sched) : List (String × Json) :=
  [("region_name", p.regionNameJ), ("region_info", p.regionInfoJ),
   ("search_term", .str p.searchTerm), ("parsed_terms", .arr (p.terms.map .str)),
   ("duplicate_count", .num (p.dupCount : Int)), ("contains_ea_codes", .bool p.eaFlag),
   ("status", .str "processing"), ("total_terms", .num (p.terms.length : Int)),
   ("total_batches", .num (totalBatches p.terms.length : Int)),
   ("products", .arr ((streamRecords p sched).map .obj)),
   ("total_found", .num (streamFoundTotal p sched : Int)),
   ("total_processed", .num ((flatSched p sched).length : Int)),
   ("status", .str "completed")]

/-- The not-found entry appended by the non-streaming loop's exception
handler (src/main.py lines 705-716; its message differs from the
streaming one). -/
def notFoundSmall (term : String) : Dict :=
  [("found", .bool false), ("searchTerm", .str term), ("productId", .null),
   ("retailerProductId", .null), ("name", .str ("Article Not Found: " ++ term)),
   ("brand", .null), ("available", .bool false), ("category", .str ""),
   ("imageUrl", .null),
   ("notFoundMessage", .str ("Error processing the article \"" ++ term ++
     "\". Please try again."))]

/-- The non-streaming collection loop (src/main.py lines 682-717):
products, total found, and not-found terms, in completion order. -/
def smallFold : List (String × TermResult) → List Dict × Nat × List String
  | [] => ([], 0, [])
  | (t, .ok r) :: rest =>
    let acc := smallFold rest
    (r.1 :: acc.1, r.2 + acc.2.1,
      if pyTruthy (dictGetD r.1 "found" (.bool false)) then acc.2.2 else t :: acc.2.2)
  | (t, .error _) :: rest =>
    let acc := smallFold rest
    (notFoundSmall t :: acc.1, acc.2.1, t :: acc.2.2)

/-- The non-streaming response document (src/main.py lines 720-731). -/
def smallDoc (p : RunParams) (items : List (String × TermResult)) : Json :=
  let acc := smallFold items
  .obj [("region_name", p.regionNameJ), ("region_info", p.regionInfoJ),
    ("search_term", .str p.searchTerm), ("parsed_terms", .arr (p.terms.map .str)),
    ("duplicate_count", .num (p.dupCount : Int)), ("contains_ea_codes", .bool p.eaFlag),
    ("total_found", .num (acc.2.1 : Int)), ("not_found_terms", .arr (acc.2.2.map .str)),
    ("products", .arr (acc.1.map .obj)), ("status", .str "completed")]

structure ReqData where
  searchTerm : Option String
  sessionId : Option String
  limit : LimitV

inductive EndpointResult where
  | streamed (frags : List (List Char))
  | direct (doc : Json)

/-- `region_name = region_info.get("nickname") or "Unknown Region"`. -/
def regionNameOf (regionInfo : Dict) : Json :=
  let v := dictGet regionInfo "nickname"
  if pyTruthy v then v else .str "Unknown Region"

/-- The `/api/fetch-product` endpoint (src/main.py lines 535-741) given
the region lookup's result and a schedule; `.error` carries the HTTP
status and message of the pre-fetch validation failures. -/
def fetch_product (data? : Option ReqData) (regionInfo : Dict) (sched : Sched) :
    Except (Nat × String) EndpointResult :=
  match data? with
  | none => .error (400, "No request data provided")
  | some data =>
    match data.searchTerm with
    | none => .error (400, "Search term is required")
    | some st =>
      if st.isEmpty then .error (400, "Search term is required")
      else
        match data.sessionId with
        | none => .error (400, "Session ID is required")
        | some sid =>
          if sid.isEmpty then .error (400, "Session ID is required")
          else if !pyTruthy (dictGet regionInfo "regionId") then
            .error (400, "Could not determine region from session ID")
          else
            let parsed := parse_search_terms st
            let p : RunParams :=
              { regionNameJ := regionNameOf regionInfo, regionInfoJ := .obj regionInfo,
                searchTerm := st, terms := parsed.1, dupCount := parsed.2.1,
                eaFlag := parsed.2.2 }
            if STREAM_THRESHOLD < parsed.1.length then
              .ok (.streamed (generate_response p sched))
            else .ok (.direct (smallDoc p (sched parsed.1)))

/-! ## Concrete inputs and spec-side comparators used by the claims -/

/-- Comma separation of a fragment list, mirroring the stream's bare `,`
yields between products. -/
def sepJoin : List (List Char) → List (List Char)
  | [] => []
  | [f] => [f]
  | f :: fs => f :: [','] :: sepJoin fs

/-- Comma-joined serializations (the products array body as streamed). -/
def joinComma : List (List Char) → List Char
  | [] => []
  | [f] => f
  | f :: fs => f ++ ',' :: joinComma fs

/-- The token a progress object's `processed` counter would put in the
stream: the quoted key `"processed"`. -/
def processedKeyPat : List Char := '"' :: ("processed".toList ++ ['"'])

/-- A run of 45 terms "1" .. "45". -/
def terms45 : List String := (List.range 45).map (fun n => toString (n + 1))

/-- A schedule completing every term in order, each future raising (the
simplest per-term outcome; the claim under test is about the assembler's
fragment structure, not the records). -/
def schedErr : Sched := fun b => b.map (fun t => (t, .error ()))

def params45 : RunParams :=
  { regionNameJ := .str "Region 1",
    regionInfoJ := .obj [("regionId", .str "1"), ("nickname", .str "Region 1"),
      ("displayAddress", .str "somewhere"), ("postalCode", .str "A1A1A1")],
    searchTerm := "bulk", terms := terms45, dupCount := 0, eaFlag := false }

/-- A product whose price object carries a current and/or an original
amount, the canonical shape the discount rule of `process_term` reads. -/
def c7product (hasCur hasOrig : Bool) (amtC amtO : Json) : Dict :=
  [("productId", .str "p"),
   ("price", .obj
     ((if hasCur then [("current", Json.obj [("amount", amtC)])] else []) ++
      (if hasOrig then [("original", Json.obj [("amount", amtO)])] else [])))]

/-- The resolved record for a product with current price "80" and
original price "100" (the claimed 20% example). -/
def c7info80 : Dict :=
  [("found", .bool true), ("searchTerm", .str "T"), ("productId", .str "p"),
   ("retailerProductId", .null), ("name", .null), ("brand", .null),
   ("available", .bool false), ("imageUrl", .null), ("currency", .str "CAD"),
   ("category", .str ""), ("currentPrice", .str "80"), ("originalPrice", .str "100"),
   ("discountPercentage", .num (roundHalfEven (((100 : ℚ) - 80) / 100 * 100)))]

/-- A three-record catalog fragment (three matched products). -/
def frag3 : Frag :=
  [("p1", [("productId", .str "p1"), ("name", .str "First"), ("available", .bool true)]),
   ("p2", [("productId", .str "p2"), ("name", .str "Second"), ("available", .bool true)]),
   ("p3", [("productId", .str "p3"), ("name", .str "Third"), ("available", .bool true)])]

/-- A two-term run and an in-order all-success schedule (witness data). -/
def c10params : RunParams :=
  { regionNameJ := .null, regionInfoJ := .null, searchTerm := "a,b",
    terms := ["a", "b"], dupCount := 0, eaFlag := false }

def schedOkNone : Sched := fun b => b.map (fun t => (t, .ok (process_term t none .noneV)))

/-- The record `process_term` builds for the first product of `frag3`
(used to exhibit the single-outcome behaviour). -/
def c1info : Dict :=
  [("found", .bool true), ("searchTerm", .str "T"), ("productId", .str "p1"),
   ("retailerProductId", .null), ("name", .str "First"), ("brand", .null),
   ("available", .bool true), ("imageUrl", .null), ("currency", .str "CAD"),
   ("category", .str "")]

theorem escCh_escChar (c : Char) : EscCh c (escChar c) := by
  unfold escChar
  split
  · next h => subst h; exact .quote
  · split
    · next h => subst h; exact .bslash
    · split
      · next h => subst h; exact .nl
      · split
        · next h => subst h; exact .tab
        · split
          · next h => subst h; exact .cr
          · next h1 h2 _ _ _ => exact .lit c h1 h2

theorem escStr_escape (l : List Char) : EscStr l (escape l) := by
  induction l with
  | nil => exact .nil
  | cons c cs ih => exact .cons (escCh_escChar c) ih

theorem list_sizeOf_pos {α : Type} [SizeOf α] (l : List α) : 0 < sizeOf l := by
  cases l <;> simp

mutual

theorem jval_renderCh : (v : Json) → JVal v (renderCh v)
  | .null => JVal.null
  | .bool true => JVal.tt
  | .bool false => JVal.ff
  | .num n => JVal.num n
  | .str s => JVal.str s (escape s.toList) (escStr_escape s.toList)
  | .arr [] => JVal.arrNil
  | .arr (e :: es) => JVal.arrCons (e :: es) (renderElems (e :: es)) (jelems_renderElems e es)
  | .obj [] => JVal.objNil
  | .obj (f :: fs) =>
    JVal.objCons (f :: fs) (renderMembers (f :: fs)) (jmembers_renderMembers f fs)
termination_by v => sizeOf v
decreasing_by all_goals (simp_wf; try omega)

theorem jelems_renderElems : (e : Json) → (es : List Json) →
    JElems (e :: es) (renderElems (e :: es))
  | e, [] => JElems.single e (renderCh e) (jval_renderCh e)
  | e, e2 :: es =>
    JElems.cons e (renderCh e) [' '] (e2 :: es) (renderElems (e2 :: es)) (jval_renderCh e)
      (by decide) (jelems_renderElems e2 es)
termination_by e es => sizeOf e + sizeOf es
decreasing_by all_goals (simp_wf; try omega)

theorem jmembers_renderMembers : (f : String × Json) → (fs : List (String × Json)) →
    JMembers (f :: fs) (renderMembers (f :: fs))
  | (k, v), [] =>
    JMembers.single k v (escape k.toList) [' '] (renderCh v) (escStr_escape k.toList)
      (by decide) (jval_renderCh v)
  | (k, v), f2 :: fs =>
    JMembers.cons k v (escape k.toList) [' '] (renderCh v) [' '] (f2 :: fs)
      (renderMembers (f2 :: fs)) (escStr_escape k.toList) (by decide) (jval_renderCh v)
      (by decide) (jmembers_renderMembers f2 fs)
termination_by f fs => sizeOf f + sizeOf fs
decreasing_by all_goals (simp_wf; try omega)

end

/-- The products array body as streamed (bare commas) also serializes the
element list. -/
theorem jelems_joinComma : (v : Json) → (vs : List Json) →
    JElems (v :: vs) (joinComma ((v :: vs).map renderCh))
  | v, [] => by
    simpa [joinComma] using JElems.single v (renderCh v) (jval_renderCh v)
  | v, v2 :: vs => by
    have h :=
      JElems.cons v (renderCh v) [] (v2 :: vs) (joinComma ((v2 :: vs).map renderCh))
        (jval_renderCh v) (by simp) (jelems_joinComma v2 vs)
    simpa [joinComma] using h

/-! ## Structure of the streamed fragment list -/

theorem emitItems_found (first : Bool) (items : List (String × TermResult)) :
    (emitItems first items).2 = (items.map (fun it => (streamOutcome it).2)).sum := by
  induction items generalizing first with
  | nil => simp [emitItems]
  | cons it rest ih => simp [emitItems, ih]

theorem emitItems_frags_false (items : List (String × TermResult)) :
    (emitItems false items).1 =
      (items.map (fun it => [[','], renderCh (.obj (streamOutcome it).1)])).flatten := by
  induction items with
  | nil => simp [emitItems]
  | cons it rest ih => simp [emitItems, ih]

theorem sepJoin_eq_cons (f : List Char) (fs : List (List Char)) :
    sepJoin (f :: fs) = f :: (fs.map (fun x => [[','], x])).flatten := by
  induction fs generalizing f with
  | nil => simp [sepJoin]
  | cons g gs ih => simp [sepJoin, ih]

theorem emitItems_frags_true (items : List (String × TermResult)) :
    (emitItems true items).1 =
      sepJoin (items.map (fun it => renderCh (.obj (streamOutcome it).1))) := by
  cases items with
  | nil => simp [emitItems, sepJoin]
  | cons it rest =>
    simp only [List.map_cons]
    rw [sepJoin_eq_cons]
    simp only [emitItems, emitItems_frags_false, List.map_map, if_true, List.nil_append]
    rfl

theorem emitItems_append (first : Bool) (xs ys : List (String × TermResult)) :
    emitItems first (xs ++ ys) =
      ((emitItems first xs).1 ++ (emitItems (first && xs.isEmpty) ys).1,
        (emitItems first xs).2 + (emitItems (first && xs.isEmpty) ys).2) := by
  induction xs generalizing first with
  | nil => simp [emitItems]
  | cons x rest ih => simp [emitItems, ih, List.append_assoc, Nat.add_assoc]

theorem emitBatches_eq (sched : Sched) (first : Bool) (bs : List (List String)) :
    emitBatches sched first bs =
      ((emitItems first ((bs.map sched).flatten)).1,
       (emitItems first ((bs.map sched).flatten)).2,
       ((bs.map sched).flatten).length) := by
  induction bs generalizing first with
  | nil => simp [emitBatches, emitItems]
  | cons b bs ih => simp [emitBatches, ih, emitItems_append, Nat.add_assoc]

/-! ## Properties of the term parser -/

theorem containsSub_tail {pat : List Char} (c : Char) {cs : List Char}
    (h : containsSub pat cs = true) : containsSub pat (c :: cs) = true := by
  simp only [containsSub, Bool.or_eq_true]
  exact Or.inr h

theorem containsSub_append_right (pat l₁ l₂ : List Char)
    (h : containsSub pat l₂ = true) : containsSub pat (l₁ ++ l₂) = true := by
  induction l₁ with
  | nil => simpa using h
  | cons c cs ih => exact containsSub_tail c ih

/-- A non-empty findall result implies the input contains `EA`. -/
theorem findallEAGo_containsEA :
    ∀ (fuel : Nat) (prev : Bool) (l : List Char),
      findallEAGo fuel prev l ≠ [] → containsSub ['E', 'A'] l = true := by
  intro fuel
  induction fuel with
  | zero => intro prev l h; simp [findallEAGo] at h
  | succ n ih =>
    intro prev l h
    cases l with
    | nil => simp [findallEAGo] at h
    | cons c cs =>
      rw [findallEAGo] at h
      split at h
      · split at h
        · next r2 heq =>
          split at h
          · have hcs : cs = cs.takeWhile isDig ++ ('E' :: 'A' :: r2) := by
              rw [← heq, List.takeWhile_append_dropWhile]
            have : containsSub ['E', 'A'] cs = true := by
              rw [hcs]
              exact containsSub_append_right _ _ _ (by simp [containsSub, startsWithL])
            exact containsSub_tail c this
          · exact containsSub_tail c (ih _ _ h)
        · exact containsSub_tail c (ih _ _ h)
      · exact containsSub_tail c (ih _ _ h)

/-- The `contains_ea_codes` flag is exactly substring containment of
`EA` in the raw input: branch 1 sets it from that containment, and the
standalone-codes branch can only fire when `EA` is present anyway. -/
theorem parsePieces_flag (s : String) :
    (parsePieces s).2 = containsSub ['E', 'A'] s.toList := by
  by_cases hEA : containsSub ['E', 'A'] s.toList = true
  · rw [hEA]
    unfold parsePieces
    simp only [hEA, if_true]
    split
    · rfl
    · split
      · split
        · split <;> rfl
        · rfl
      · rfl
  · have hEA' : containsSub ['E', 'A'] s.toList = false := by
      cases hcs : containsSub ['E', 'A'] s.toList
      · rfl
      · exact absurd hcs hEA
    rw [hEA']
    unfold parsePieces
    simp only [hEA', Bool.false_eq_true, if_false]
    have hcodes : findallEA false s.toList = [] := by
      by_contra hne
      have hc := findallEAGo_containsEA _ false s.toList hne
      rw [hc] at hEA'
      exact absurd hEA' (by simp)
    split
    · rfl
    · rw [hcodes]
      simp only [List.isEmpty_nil, if_true]
      split
      · split <;> rfl
      · rfl

theorem parse_flag (s : String) :
    (parse_search_terms s).2.2 = containsSub ['E', 'A'] s.toList := by
  simpa [parse_search_terms] using parsePieces_flag s

theorem pyDedupAux_eq (l : List String) :
    ∀ seen : List String, pyDedupAux seen l =
      firstSeen (l.filter (fun x => !seen.contains x)) := by
  induction l with
  | nil => intro seen; simp [pyDedupAux, firstSeen]
  | cons t ts ih =>
    intro seen
    by_cases ht : seen.contains t
    · have htm : t ∈ seen := by simpa using ht
      simp only [pyDedupAux, ht, if_true]
      rw [ih seen]
      have hft : List.filter (fun x => !seen.contains x) (t :: ts) =
          List.filter (fun x => !seen.contains x) ts := by
        simp [List.filter_cons, htm]
      rw [hft]
    · have ht' : seen.contains t = false := by
        cases hcs : seen.contains t
        · rfl
        · exact absurd hcs ht
      simp only [pyDedupAux, ht', Bool.false_eq_true, if_false, List.filter_cons,
        Bool.not_false, if_true]
      rw [ih (t :: seen), firstSeen]
      congr 1
      rw [List.filter_filter]
      congr 1
      apply List.filter_congr
      intro x _
      by_cases hxt : x = t
      · subst hxt
        simp [List.contains_cons]
      · simp [hxt, List.contains_cons]

theorem mem_firstSeen (l : List String) : ∀ a, a ∈ firstSeen l ↔ a ∈ l := by
  induction l using firstSeen.induct with
  | case1 => simp [firstSeen]
  | case2 x xs ih =>
    intro a
    rw [firstSeen]
    constructor
    · intro h
      rcases List.mem_cons.mp h with h | h
      · simp [h]
      · have := (ih a).mp h
        exact List.mem_cons_of_mem x (List.mem_of_mem_filter this)
    · intro h
      rcases List.mem_cons.mp h with h | h
      · simp [h]
      · by_cases hax : a = x
        · simp [hax]
        · exact List.mem_cons_of_mem x ((ih a).mpr (List.mem_filter.mpr ⟨h, by simp [hax]⟩))

theorem firstSeen_nodup (l : List String) : (firstSeen l).Nodup := by
  induction l using firstSeen.induct with
  | case1 => simp [firstSeen]
  | case2 x xs ih =>
    rw [firstSeen]
    refine List.nodup_cons.mpr ⟨?_, ih⟩
    intro hmem
    have := (mem_firstSeen _ x).mp hmem
    have := List.of_mem_filter this
    simp at this

theorem firstSeen_sublist (l : List String) : (firstSeen l).Sublist l := by
  induction l using firstSeen.induct with
  | case1 => simp [firstSeen]
  | case2 x xs ih =>
    rw [firstSeen]
    exact List.Sublist.cons₂ x (ih.trans (List.filter_sublist xs))

theorem pyDedup_eq_firstSeen (l : List String) : pyDedup l = firstSeen l := by
  rw [pyDedup, pyDedupAux_eq]
  congr 1
  simpa using List.filter_true l

/-- C5 counterexample: the claim says `containsCodedTokens` is true
exactly when the input contains a run of digits immediately followed by
`EA`.  The input "BEAN" contains no digit run at all, yet the parser
reports the flag as true, because the source sets it whenever the bare
substring `EA` occurs (src/main.py line 140). -/
theorem c5_counterexample :
    (parse_search_terms "BEAN").2.2 = true ∧ hasDigitsEA "BEAN".toList = false :=
  ⟨rfl, rfl⟩

/-- C5 (amended): `containsCodedTokens` is true exactly when the raw
input contains the substring `EA` (digits before it are not required);
the delimiter-insertion behaviour on genuine coded tokens is as claimed:
`parse("12345EA67890EA")` yields terms `["12345EA", "67890EA"]` with the
flag set. -/
theorem c5_amended :
    (∀ s : String, (parse_search_terms s).2.2 = containsSub ['E', 'A'] s.toList) ∧
      parse_search_terms "12345EA67890EA" = (["12345EA", "67890EA"], 0, true) :=
  ⟨parse_flag, rfl⟩

/-- C6 counterexample: the claim says the parser's output records the
ordered identity of the duplicated terms (`parse("A,B,A")` should carry
`duplicates = [A]`).  The source returns only
`(unique_terms, duplicate_count, contains_ea_codes)`: the inputs
"A,B,A" (duplicate A) and "A,B,B" (duplicate B) produce identical
outputs, so no component of the output records which term was
duplicated. -/
theorem c6_counterexample :
    parse_search_terms "A,B,A" = parse_search_terms "A,B,B" ∧
      parse_search_terms "A,B,A" = (["A", "B"], 1, false) :=
  ⟨rfl, rfl⟩

/-- C6 (amended): the unique term list is the keep-first deduplication
of the cleaned terms — hence duplicate-free, order-preserving (a sublist
of the cleaned terms containing all of them) — and the output records
the number of removed duplicates, but not their identity;
`parse("A,B,A")` yields uniqueTerms `[A, B]` and duplicateCount 1. -/
theorem c6_amended :
    (∀ s : String,
        (parse_search_terms s).1 = firstSeen (cleanedTerms s) ∧
        (parse_search_terms s).1.Nodup ∧
        (parse_search_terms s).1.Sublist (cleanedTerms s) ∧
        (∀ t ∈ cleanedTerms s, t ∈ (parse_search_terms s).1) ∧
        (parse_search_terms s).2.1 = (cleanedTerms s).length - (parse_search_terms s).1.length) ∧
      parse_search_terms "A,B,A" = (["A", "B"], 1, false) := by
  refine ⟨fun s => ?_, rfl⟩
  have h1 : (parse_search_terms s).1 = firstSeen (cleanedTerms s) :=
    pyDedup_eq_firstSeen (cleanedTerms s)
  refine ⟨h1, ?_, ?_, ?_, rfl⟩
  · rw [h1]; exact firstSeen_nodup _
  · rw [h1]; exact firstSeen_sublist _
  · intro t ht
    rw [h1]
    exact (mem_firstSeen _ t).mpr ht

/-! ## The discount rule (C7) -/

theorem rat_floor_eq (q : ℚ) : Rat.floor q = ⌊q⌋ := by
  rw [Rat.floor_def', ← Rat.floor_def]

/-- `roundHalfEven` is a nearest-integer rounding. -/
theorem roundHalfEven_nearest (q : ℚ) : |((roundHalfEven q : Int) : ℚ) - q| ≤ 1 / 2 := by
  have hd0 : (0 : ℚ) < (q.den : ℚ) := by exact_mod_cast q.den_pos
  have hnum : (q.num : ℚ) = q * (q.den : ℚ) := by
    have h1 := Rat.num_div_den q
    have hd : (q.den : ℚ) ≠ 0 := ne_of_gt hd0
    calc (q.num : ℚ) = (q.num : ℚ) / (q.den : ℚ) * (q.den : ℚ) := by field_simp
    _ = q * (q.den : ℚ) := by rw [h1]
  have hflo : ((⌊q⌋ : Int) : ℚ) ≤ q := Int.floor_le q
  have hflo2 : q < ((⌊q⌋ : Int) : ℚ) + 1 := Int.lt_floor_add_one q
  unfold roundHalfEven
  rw [rat_floor_eq]
  split
  · next h =>
    have hq : 2 * ((q.num : ℚ) - ((⌊q⌋ : Int) : ℚ) * (q.den : ℚ)) < (q.den : ℚ) := by
      exact_mod_cast h
    rw [hnum] at hq
    have hlt : q - ((⌊q⌋ : Int) : ℚ) < 1 / 2 := by nlinarith
    rw [abs_of_nonpos (by linarith)]
    linarith
  · next h1 =>
    have hq1 : (q.den : ℚ) ≤ 2 * ((q.num : ℚ) - ((⌊q⌋ : Int) : ℚ) * (q.den : ℚ)) := by
      exact_mod_cast not_lt.mp h1
    rw [hnum] at hq1
    have hge : 1 / 2 ≤ q - ((⌊q⌋ : Int) : ℚ) := by nlinarith
    split
    · push_cast
      rw [abs_of_nonneg (by linarith)]
      linarith
    · next h2 =>
      have hq2 : 2 * ((q.num : ℚ) - ((⌊q⌋ : Int) : ℚ) * (q.den : ℚ)) ≤ (q.den : ℚ) := by
        exact_mod_cast not_lt.mp h2
      rw [hnum] at hq2
      have hle : q - ((⌊q⌋ : Int) : ℚ) ≤ 1 / 2 := by nlinarith
      split
      · rw [abs_of_nonpos (by linarith)]
        linarith
      · push_cast
        rw [abs_of_nonneg (by linarith)]
        linarith

/-- C7: for a resolved product record (a successful `process_term`
extraction over a product whose price object carries current/original
amounts that are JSON strings or null), the `discountPercentage` field
is present exactly when both amounts parse as numbers and the original
exceeds the current, and when present its value is the discount
percentage rounded by a nearest-integer rounding (Python's half-even). -/
theorem c7_discount (t : String) (hasCur hasOrig : Bool) (amtC amtO : Json)
    (hC : amtC = Json.null ∨ ∃ s, amtC = Json.str s)
    (hO : amtO = Json.null ∨ ∃ s, amtO = Json.str s)
    (info' : Dict)
    (h : buildProductInfo t (c7product hasCur hasOrig amtC amtO) = .ok info') :
    ((dictGet? info' "discountPercentage").isSome = true ↔
      (hasCur = true ∧ hasOrig = true ∧ ∃ (sc so : String) (c o : ℚ),
        amtC = Json.str sc ∧ amtO = Json.str so ∧
        parseDec sc = some c ∧ parseDec so = some o ∧ c < o)) ∧
    (∀ dv : Json, dictGet? info' "discountPercentage" = some dv →
      ∃ (sc so : String) (c o : ℚ), amtC = Json.str sc ∧ amtO = Json.str so ∧
        parseDec sc = some c ∧ parseDec so = some o ∧ c < o ∧
        dv = Json.num (roundHalfEven ((o - c) / o * 100)) ∧
        |((roundHalfEven ((o - c) / o * 100) : Int) : ℚ) - (o - c) / o * 100| ≤ 1 / 2) := by
  rcases hC with rfl | ⟨sc, rfl⟩
  · rcases hO with rfl | ⟨so, rfl⟩ <;> cases hasCur <;> cases hasOrig <;>
      · simp [buildProductInfo, c7product, addPriceFields, dictGet?, dictGet, dictGetD,
          listSet, pure, Except.pure, Bind.bind, Except.bind, Json.isNull] at h
        subst h
        refine ⟨by simp [dictGet?], ?_⟩
        intro dv hdv
        simp [dictGet?] at hdv
  · rcases hO with rfl | ⟨so, rfl⟩
    · cases hasCur <;> cases hasOrig <;>
        · simp [buildProductInfo, c7product, addPriceFields, dictGet?, dictGet, dictGetD,
            listSet, pure, Except.pure, Bind.bind, Except.bind, Json.isNull] at h
          subst h
          refine ⟨by simp [dictGet?], ?_⟩
          intro dv hdv
          simp [dictGet?] at hdv
    · cases hasCur <;> cases hasOrig
      case false.false | false.true | true.false =>
        simp [buildProductInfo, c7product, addPriceFields, dictGet?, dictGet, dictGetD,
          listSet, pure, Except.pure, Bind.bind, Except.bind, Json.isNull] at h
        subst h
        refine ⟨by simp [dictGet?], ?_⟩
        intro dv hdv
        simp [dictGet?] at hdv
      case true.true =>
        cases hpc : parseDec sc <;> cases hpo : parseDec so
        case none.none | none.some | some.none =>
          simp [buildProductInfo, c7product, addPriceFields, dictGet?, dictGet, dictGetD,
            listSet, pure, Except.pure, Bind.bind, Except.bind, Json.isNull, pyFloat?,
            hpc, hpo] at h
          subst h
          refine ⟨by simp [dictGet?, hpc, hpo], ?_⟩
          intro dv hdv
          simp [dictGet?] at hdv
        case some.some c o =>
          by_cases hlt : c < o
          · by_cases ho0 : o = 0
            · subst ho0
              simp [buildProductInfo, c7product, addPriceFields, dictGet?, dictGet, dictGetD,
                listSet, pure, Except.pure, Bind.bind, Except.bind, Json.isNull, pyFloat?,
                hpc, hpo, hlt] at h
            · simp [buildProductInfo, c7product, addPriceFields, dictGet?, dictGet, dictGetD,
                listSet, pure, Except.pure, Bind.bind, Except.bind, Json.isNull, pyFloat?,
                hpc, hpo, hlt, ho0] at h
              subst h
              refine ⟨⟨fun _ => ⟨rfl, rfl, sc, so, c, o, rfl, rfl, hpc, hpo, hlt⟩,
                fun _ => by simp [dictGet?]⟩, ?_⟩
              intro dv hdv
              simp [dictGet?] at hdv
              exact ⟨sc, so, c, o, rfl, rfl, hpc, hpo, hlt, hdv.symm,
                roundHalfEven_nearest _⟩
          · simp [buildProductInfo, c7product, addPriceFields, dictGet?, dictGet, dictGetD,
              listSet, pure, Except.pure, Bind.bind, Except.bind, Json.isNull, pyFloat?,
              hpc, hpo, hlt] at h
            subst h
            refine ⟨?_, ?_⟩
            · simp [dictGet?, hpc, hpo, hlt]
            · intro dv hdv
              simp [dictGet?] at hdv

theorem c7eval :
    buildProductInfo "T" (c7product true true (.str "80") (.str "100")) = .ok c7info80 := by
  simp [buildProductInfo, c7product, addPriceFields, dictGet?, dictGet, dictGetD,
    listSet, pure, Except.pure, Bind.bind, Except.bind, Json.isNull, pyFloat?, c7info80,
    show parseDec "80" = some 80 from by decide,
    show parseDec "100" = some 100 from by decide,
    show (80 : ℚ) < 100 from by norm_num,
    show ¬((100 : ℚ) = 0) from by norm_num]

theorem roundHalfEven_int (n : Int) : roundHalfEven ((n : Int) : ℚ) = n := by
  unfold roundHalfEven
  rw [rat_floor_eq]
  simp [Rat.num_intCast, Rat.den_intCast, Int.floor_intCast]

theorem c7val : dictGet? c7info80 "discountPercentage" = some (.num 20) := by
  have h20 : roundHalfEven (((100 : ℚ) - 80) / 100 * 100) = 20 := by
    have he : (((100 : ℚ) - 80) / 100 * 100) = ((20 : Int) : ℚ) := by
      push_cast
      norm_num
    rw [he, roundHalfEven_int]
  rw [show dictGet? c7info80 "discountPercentage" =
      some (.num (roundHalfEven (((100 : ℚ) - 80) / 100 * 100))) from rfl, h20]

/-- C7 witness: at current price "80" and original price "100" the
hypotheses of the discount theorem hold, the theorem's conclusion
follows, and the concrete discount value is 20. -/
theorem c7_discount_witness :
    ((Json.str "80" = Json.null ∨ ∃ s, Json.str "80" = Json.str s) ∧
     (Json.str "100" = Json.null ∨ ∃ s, Json.str "100" = Json.str s) ∧
     buildProductInfo "T" (c7product true true (.str "80") (.str "100")) = .ok c7info80) ∧
    (((dictGet? c7info80 "discountPercentage").isSome = true ↔
       (true = true ∧ true = true ∧ ∃ (sc so : String) (c o : ℚ),
         Json.str "80" = Json.str sc ∧ Json.str "100" = Json.str so ∧
         parseDec sc = some c ∧ parseDec so = some o ∧ c < o)) ∧
     (∀ dv : Json, dictGet? c7info80 "discountPercentage" = some dv →
       ∃ (sc so : String) (c o : ℚ),
         Json.str "80" = Json.str sc ∧ Json.str "100" = Json.str so ∧
         parseDec sc = some c ∧ parseDec so = some o ∧ c < o ∧
         dv = Json.num (roundHalfEven ((o - c) / o * 100)) ∧
         |((roundHalfEven ((o - c) / o * 100) : Int) : ℚ) - (o - c) / o * 100| ≤ 1 / 2)) ∧
    dictGet? c7info80 "discountPercentage" = some (.num 20) :=
  ⟨⟨Or.inr ⟨"80", rfl⟩, Or.inr ⟨"100", rfl⟩, c7eval⟩,
   c7_discount "T" true true _ _ (Or.inr ⟨"80", rfl⟩) (Or.inr ⟨"100", rfl⟩) c7info80 c7eval,
   c7val⟩

/-- The streamed fragment list is exactly: the opening fragment, then the
outcome objects separated by bare commas, then the terminal fragment —
and nothing else (in particular no interleaved progress fragments). -/
theorem generate_response_eq (p : RunParams) (sched : Sched) :
    generate_response p sched =
      headerFrag p ::
        (sepJoin ((streamRecords p sched).map (fun r => renderCh (.obj r))) ++
          [footerFrag (streamFoundTotal p sched) (flatSched p sched).length]) := by
  unfold generate_response streamRecords streamFoundTotal flatSched
  simp [emitBatches_eq, emitItems_frags_true, emitItems_found, List.map_map,
    List.map_flatten, List.sum_flatten, List.length_flatten, Function.comp_def]

end Markchecker
namespace Markchecker

theorem escape_id {l : List Char}
    (h : ∀ c ∈ l, c ≠ '"' ∧ c ≠ '\\' ∧ c ≠ '\n' ∧ c ≠ '\t' ∧ c ≠ '\r') : escape l = l := by
  induction l with
  | nil => rfl
  | cons c cs ih =>
    have hc := h c (List.mem_cons_self c cs)
    have ih' := ih (fun d hd => h d (List.mem_cons_of_mem c hd))
    simp only [escape, escChar, hc.1, hc.2.1, hc.2.2.1, hc.2.2.2.1, hc.2.2.2.2,
      if_false, ih']
    rfl

theorem takeWhile_noquote {v : List Char} (r : List Char)
    (hv : ∀ c ∈ v, c ≠ '"') :
    (v ++ '"' :: r).takeWhile (fun c => c ≠ '"') = v := by
  induction v with
  | nil => simp
  | cons c cs ih =>
    have hc := hv c (List.mem_cons_self c cs)
    have ih' := ih (fun d hd => hv d (List.mem_cons_of_mem c hd))
    simp only [List.cons_append, List.takeWhile_cons, ih']
    rw [if_pos (by simpa using hc)]

theorem dropWhile_noquote {v : List Char} (r : List Char)
    (hv : ∀ c ∈ v, c ≠ '"') :
    (v ++ '"' :: r).dropWhile (fun c => c ≠ '"') = '"' :: r := by
  induction v with
  | nil => simp
  | cons c cs ih =>
    have hc := hv c (List.mem_cons_self c cs)
    have ih' := ih (fun d hd => hv d (List.mem_cons_of_mem c hd))
    simp only [List.cons_append, List.dropWhile_cons]
    rw [if_pos (by simpa using hc)]
    exact ih'

theorem listSet_key_comp (k k' : String) (v : Json) :
    ((fun (p : String × Json) => p.1 == k) ∘
      (fun p => if p.1 == k' then (k', v) else p)) = (fun p => p.1 == k) := by
  funext q
  by_cases hq : q.1 == k'
  · have hq1 : q.1 = k' := by simpa using hq
    simp [Function.comp, hq, hq1]
  · simp [Function.comp, hq]

theorem dictGet?_listSet_same (d : Dict) (k : String) (v : Json) :
    dictGet? (listSet d k v) k = some v := by
  unfold listSet dictGet?
  by_cases hany : d.any (fun p => p.1 == k)
  · rw [if_pos hany, List.find?_map, listSet_key_comp]
    have hex : ∃ q, d.find? (fun p => p.1 == k) = some q := by
      rw [← Option.isSome_iff_exists, List.find?_isSome]
      simpa using List.any_eq_true.mp hany
    obtain ⟨q, hq⟩ := hex
    have hqk := List.find?_some hq
    have hq1 : q.1 = k := by simpa using hqk
    rw [hq]
    simp [hq1]
  · rw [if_neg hany]
    have hnone : d.find? (fun p => p.1 == k) = none := by
      rw [List.find?_eq_none]
      intro p hp hpk
      exact hany (List.any_eq_true.mpr ⟨p, hp, hpk⟩)
    rw [List.find?_append, hnone]
    simp

theorem dictGet?_listSet_ne (d : Dict) {k k' : String} (h : ¬k' = k) (v : Json) :
    dictGet? (listSet d k' v) k = dictGet? d k := by
  unfold listSet dictGet?
  by_cases hany : d.any (fun p => p.1 == k')
  · rw [if_pos hany, List.find?_map, listSet_key_comp]
    cases hq : d.find? (fun p => p.1 == k) with
    | none => simp
    | some q =>
      have hqk := List.find?_some hq
      have hq1 : q.1 = k := by simpa using hqk
      have hne : ¬q.1 = k' := by
        rw [hq1]
        exact fun hh => h hh.symm
      simp [hne]
  · rw [if_neg hany]
    rw [List.find?_append]
    have hl : List.find? (fun p => p.1 == k) [(k', v)] = none := by
      simp [show (k' == k) = false by simpa using h]
    rw [hl]
    simp

theorem extract_name (pj : List Char) (pid : String) (v : List Char)
    (hname : findKeyStr "name".toList pj = some v) :
    ∃ d, extract_product_fields pj pid = some d ∧
      dictGet? d "name" = some (.str v.asString) := by
  unfold extract_product_fields
  rw [hname]
  cases h1 : findKeyStr "retailerProductId".toList pj <;>
    cases h3 : findKeyStr "brand".toList pj <;>
    cases h4 : scanFor matchAvailBool pj <;>
    cases h5 : scanFor matchCurrentAmount pj <;>
    cases h6 : findKeyStr "src".toList pj <;>
    exact ⟨_, rfl, by simp +decide [dictGet?_listSet_ne, dictGet?_listSet_same]⟩

theorem scanFor_step {α : Type} (m : List Char → Option α) (c : Char) (cs : List Char)
    (h : m (c :: cs) = none) : scanFor m (c :: cs) = scanFor m cs := by
  simp only [scanFor, h]

theorem scanFor_hit {α : Type} (m : List Char → Option α) (c : Char) (cs : List Char) {a : α}
    (h : m (c :: cs) = some a) : scanFor m (c :: cs) = some a := by
  simp only [scanFor, h]

theorem findKeyStr_name_render (v : String) (hne : ¬v.toList = [])
    (hv : ∀ c ∈ v.toList, c ≠ '"' ∧ c ≠ '\\' ∧ c ≠ '\n' ∧ c ≠ '\t' ∧ c ≠ '\r') :
    findKeyStr "name".toList (renderCh (.obj [("name", .str v)])) = some v.toList := by
  have hq : ∀ c ∈ v.toList, c ≠ '"' := fun c hc => (hv c hc).1
  have hfrag : renderCh (.obj [("name", .str v)]) =
      '\x7b' :: '"' :: 'n' :: 'a' :: 'm' :: 'e' :: '"' :: ':' :: ' ' :: '"' ::
        (v.toList ++ '"' :: ['\x7d']) := by
    simp only [renderCh, renderMembers]
    rw [escape_id hv, show escape "name".toList = "name".toList from rfl]
    simp
  have hmiss : matchKeyStr "name".toList
      ('\x7b' :: '"' :: 'n' :: 'a' :: 'm' :: 'e' :: '"' :: ':' :: ' ' :: '"' ::
        (v.toList ++ '"' :: ['\x7d'])) = none := by
    simp [matchKeyStr, dropLit]
  have hmtch : matchKeyStr "name".toList
      ('"' :: 'n' :: 'a' :: 'm' :: 'e' :: '"' :: ':' :: ' ' :: '"' ::
        (v.toList ++ '"' :: ['\x7d'])) = some (v.toList, ['\x7d']) := by
    obtain ⟨c, cs, hvl⟩ : ∃ c cs, v.toList = c :: cs := by
      cases hh : v.toList with
      | nil => exact absurd hh hne
      | cons c cs => exact ⟨c, cs, rfl⟩
    have hc : ¬c = '"' := by
      have hm := hq c (by rw [hvl]; exact List.mem_cons_self c cs)
      simpa using hm
    have hq2 : ∀ d ∈ cs, d ≠ '"' := fun d hd => hq d (by rw [hvl]; exact List.mem_cons_of_mem c hd)
    have ht : List.takeWhile (fun x => !decide (x = '"')) (cs ++ '"' :: ['\x7d']) = cs := by
      simpa using takeWhile_noquote ['\x7d'] hq2
    have hd2 : List.dropWhile (fun x => !decide (x = '"')) (cs ++ '"' :: ['\x7d']) = '"' :: ['\x7d'] := by
      simpa using dropWhile_noquote ['\x7d'] hq2
    unfold matchKeyStr
    rw [show dropLit ('"' :: ("name".toList ++ ['"']))
        ('"' :: 'n' :: 'a' :: 'm' :: 'e' :: '"' :: ':' :: ' ' :: '"' ::
          (v.toList ++ '"' :: ['\x7d'])) =
        some (':' :: ' ' :: '"' :: (v.toList ++ '"' :: ['\x7d'])) from rfl]
    rw [hvl]
    simp [List.dropWhile, isPySpace, ht, hd2, hc]
  rw [hfrag]
  unfold findKeyStr
  rw [scanFor_step _ _ _ hmiss, scanFor_hit _ _ _ hmtch]
  rfl

/-- C8 counterexample: the claim says the regex fallback recovers the
name field correctly even when the value contains escaped quotes.  On
the exact `json.dumps` serialization of a product whose name is
`say "hi"`, the capture group `[^"]+` of the name pattern stops at the
backslash-quote escape, so the recovered name is the truncation
`say \` rather than the original value (src/main.py line 330). -/
theorem c8_counterexample :
    (extract_product_fields
        (renderCh (.obj [("productId", .str "p1"), ("name", .str "say \"hi\"")])) "p1").bind
        (fun d => dictGet? d "name") = some (.str "say \\") ∧
      ("say \\" : String) ≠ "say \"hi\"" :=
  ⟨rfl, by decide⟩

/-- C8 (amended): on the serialization of a product fragment whose name
value is non-empty and free of characters needing escapes (quote,
backslash, newline, tab, carriage return), the regex fallback
`extract_product_fields` succeeds and recovers the name verbatim. -/
theorem c8_amended (v : String) (hne : ¬v.toList = [])
    (hv : ∀ c ∈ v.toList, c ≠ '"' ∧ c ≠ '\\' ∧ c ≠ '\n' ∧ c ≠ '\t' ∧ c ≠ '\r') :
    ∃ d, extract_product_fields (renderCh (.obj [("name", .str v)])) "p1" = some d ∧
      dictGet? d "name" = some (.str v) := by
  obtain ⟨d, hd, hn⟩ := extract_name (renderCh (.obj [("name", .str v)])) "p1" v.toList
    (findKeyStr_name_render v hne hv)
  refine ⟨d, hd, ?_⟩
  rw [hn]
  obtain ⟨l⟩ := v
  rfl

/-- C8 witness: the amended theorem applied at the concrete name
`Oat Milk`. -/
theorem c8_amended_witness :
    (¬("Oat Milk" : String).toList = []) ∧
      (∀ c ∈ ("Oat Milk" : String).toList,
        c ≠ '"' ∧ c ≠ '\\' ∧ c ≠ '\n' ∧ c ≠ '\t' ∧ c ≠ '\r') ∧
      ∃ d, extract_product_fields (renderCh (.obj [("name", .str "Oat Milk")])) "p1" = some d ∧
        dictGet? d "name" = some (.str "Oat Milk") :=
  ⟨by decide, by decide, c8_amended "Oat Milk" (by decide) (by decide)⟩

end Markchecker
namespace Markchecker

theorem processPid_not_malformed (jl : List Char → Except DecodeErr Dict) (body : List Char)
    (acc : Frag) (pid : String) :
    processPid jl body acc pid ≠ .error .malformed := by
  intro h
  unfold processPid at h
  repeat' split at h
  all_goals try simp at h
  all_goals
    rename_i r1 hb hsw
  all_goals
    cases hjl : jl ('\x7b' :: r1) with
    | ok pdata => rw [hjl] at h; simp at h
    | error e =>
      cases e
      · rw [hjl] at h
        repeat' split at h
        all_goals simp at h
      · rw [hjl] at h
        simp at h

theorem foldlM_processPid_not_malformed (jl : List Char → Except DecodeErr Dict)
    (body : List Char) (pids : List String) (acc : Frag) :
    pids.foldlM (processPid jl body) acc ≠ .error .malformed := by
  induction pids generalizing acc with
  | nil => simp [List.foldlM, pure, Except.pure]
  | cons p ps ih =>
    simp only [List.foldlM]
    cases hf : processPid jl body acc p with
    | ok f => simpa [Bind.bind, Except.bind] using ih f
    | error e =>
      cases e with
      | malformed => exact absurd hf (processPid_not_malformed jl body acc p)
      | tooDeep => simp [Bind.bind, Except.bind]

/-- C4: for every strict-parser behaviour (failing with a decode error or
a recursion overflow on arbitrary inputs), every term and every 2xx
response body, `fetch_product_data` returns a catalog fragment — possibly
empty, possibly partially populated — and never propagates the decode
fault: a malformed per-product parse falls back to regex extraction
inside the loop, and a recursion overflow is caught by the outer handler
which returns the empty structure (src/main.py lines 186-306). -/
theorem c4_fetch_total (jl : List Char → Except DecodeErr Dict) (term : String)
    (body : List Char) : (fetch_product_data_2xx jl term body).isSome := by
  unfold fetch_product_data_2xx
  cases hc : fetch_decode_core jl term body with
  | ok f => simp
  | error e =>
    cases e with
    | tooDeep => simp
    | malformed =>
      exfalso
      unfold fetch_decode_core at hc
      split at hc
      · simp at hc
      · simp only [Bind.bind, Except.bind] at hc
        split at hc
        · next e heq =>
          injection hc with he
          subst he
          exact foldlM_processPid_not_malformed jl body _ [] heq
        · repeat' split at hc
          all_goals simp at hc

end Markchecker
namespace Markchecker

theorem dictGet?_listSet_ne2 {k k' : String} (h : ¬k' = k) (d : Dict) (v : Json) :
    dictGet? (listSet d k' v) k = dictGet? d k := dictGet?_listSet_ne d h v

theorem addPriceFields_get (info0 product info : Dict) (k : String)
    (h : addPriceFields info0 product = .ok info)
    (h1 : ¬"currentPrice" = k) (h2 : ¬"currency" = k) (h3 : ¬"originalPrice" = k)
    (h4 : ¬"discountPercentage" = k) (h5 : ¬"unitPrice" = k) (h6 : ¬"unitLabel" = k) :
    dictGet? info k = dictGet? info0 k := by
  unfold addPriceFields at h
  repeat'
    first
      | split at h
      | simp only [Bind.bind, Except.bind, pure, Except.pure] at h
  all_goals try exact Except.noConfusion h
  all_goals (injection h with h; subst h)
  all_goals
    simp [dictGet?_listSet_ne2 h1, dictGet?_listSet_ne2 h2, dictGet?_listSet_ne2 h3,
      dictGet?_listSet_ne2 h4, dictGet?_listSet_ne2 h5, dictGet?_listSet_ne2 h6]

theorem buildProductInfo_get (term : String) (product info : Dict) (k : String)
    (h : buildProductInfo term product = .ok info)
    (h1 : ¬"imageUrl" = k) (h2 : ¬"category" = k) (h3 : ¬"currentPrice" = k)
    (h4 : ¬"currency" = k) (h5 : ¬"originalPrice" = k) (h6 : ¬"discountPercentage" = k)
    (h7 : ¬"unitPrice" = k) (h8 : ¬"unitLabel" = k) (h9 : ¬"offers" = k)
    (h10 : ¬"primaryOffer" = k) :
    dictGet? info k =
      dictGet? [("found", .bool true), ("searchTerm", .str term),
        ("productId", dictGet product "productId"),
        ("retailerProductId", dictGet product "retailerProductId"),
        ("name", dictGet product "name"), ("brand", dictGet product "brand"),
        ("available", dictGetD product "available" (.bool false)),
        ("imageUrl", .null), ("currency", .str "CAD")] k := by
  unfold buildProductInfo at h
  repeat'
    first
      | split at h
      | simp only [Bind.bind, Except.bind, pure, Except.pure] at h
  all_goals try exact Except.noConfusion h
  all_goals (injection h with h; subst h)
  all_goals rename addPriceFields _ _ = Except.ok _ => hapf
  all_goals try simp only [dictGet?_listSet_ne2 h9, dictGet?_listSet_ne2 h10]
  all_goals rw [addPriceFields_get _ _ _ _ hapf h3 h4 h5 h6 h7 h8]
  all_goals try simp only [dictGet?_listSet_ne2 h1, dictGet?_listSet_ne2 h2]
  all_goals rfl

theorem buildProductInfo_marks (term : String) (product info : Dict)
    (h : buildProductInfo term product = .ok info) :
    dictGet? info "found" = some (.bool true) ∧
      dictGet? info "searchTerm" = some (.str term) := by
  constructor
  · rw [buildProductInfo_get term product info "found" h (by decide) (by simp) (by decide)
      (by simp) (by decide) (by simp) (by decide) (by simp) (by decide) (by simp)]
    rfl
  · rw [buildProductInfo_get term product info "searchTerm" h (by decide) (by simp)
      (by decide) (by simp) (by decide) (by simp) (by decide) (by simp) (by decide)
      (by simp)]
    rfl

/-- C1 counterexample: the claim says that with a non-empty fetched
fragment the term yields one Found outcome per selected record, up to
min(resultLimit, 50).  `frag3` has three records and the limit is 3, so
the claim expects three outcomes; the source (src/main.py lines 401-405)
only ever reads `product_keys[0]` and builds a single record, so the
result is identical to a limit of 1: one outcome, built from the first
record only. -/
theorem c1_counterexample :
    process_term "T" (some frag3) (.intV 3) = process_term "T" (some frag3) (.intV 1) ∧
      (smallFold [("T", .ok (process_term "T" (some frag3) (.intV 3)))]).1.length = 1 ∧
      dictGet? (process_term "T" (some frag3) (.intV 3)).1 "productId" = some (.str "p1") ∧
      frag3.length = 3 :=
  ⟨rfl, rfl, rfl, rfl⟩

/-- C1 (amended): when the fetched fragment is non-empty, the limit
selection succeeds with a non-empty key list and the record build
succeeds, `process_term` produces exactly one Found outcome, built from
the first selected record, carrying the original search term, with the
fragment size as the match count. -/
theorem c1_amended (term : String) (frag : Frag) (limit : LimitV)
    (hne : frag.isEmpty = false) (k : String) (ks : List String)
    (hsel : selectKeys (frag.map (fun p => p.1)) limit = .ok (k :: ks))
    (info : Dict)
    (hinfo : buildProductInfo term ((listGet? frag k).getD []) = .ok info) :
    process_term term (some frag) limit = (info, frag.length) ∧
      dictGet? info "found" = some (.bool true) ∧
      dictGet? info "searchTerm" = some (.str term) := by
  have hcore : process_term_core term (some frag) limit = .ok (info, frag.length) := by
    unfold process_term_core
    simp [hne, hsel, hinfo, Bind.bind, Except.bind]
  refine ⟨?_, buildProductInfo_marks term _ info hinfo⟩
  unfold process_term
  rw [hcore]

/-- C1 witness: the amended theorem at `frag3` with limit 3. -/
theorem c1_amended_witness :
    frag3.isEmpty = false ∧
      selectKeys (frag3.map (fun p => p.1)) (.intV 3) = .ok ("p1" :: ["p2", "p3"]) ∧
      buildProductInfo "T" ((listGet? frag3 "p1").getD []) = .ok c1info ∧
      (process_term "T" (some frag3) (.intV 3) = (c1info, frag3.length) ∧
        dictGet? c1info "found" = some (.bool true) ∧
        dictGet? c1info "searchTerm" = some (.str "T")) :=
  ⟨rfl, rfl, rfl, c1_amended "T" frag3 (.intV 3) rfl "p1" ["p2", "p3"] rfl c1info rfl⟩

end Markchecker
namespace Markchecker

theorem process_term_core_searchTerm (t : String) (fr : Option Frag) (lim : LimitV)
    (r : Dict × Nat) (h : process_term_core t fr lim = .ok r) :
    dictGet? r.1 "searchTerm" = some (.str t) := by
  unfold process_term_core at h
  repeat'
    first
      | split at h
      | simp only [Bind.bind, Except.bind, pure, Except.pure] at h
  all_goals try exact Except.noConfusion h
  all_goals (injection h with h; subst h)
  all_goals try rfl
  all_goals rename buildProductInfo _ _ = Except.ok _ => hb
  all_goals exact (buildProductInfo_marks _ _ _ hb).2

theorem process_term_searchTerm (t : String) (fr : Option Frag) (lim : LimitV) :
    dictGet? (process_term t fr lim).1 "searchTerm" = some (.str t) := by
  unfold process_term
  cases hc : process_term_core t fr lim with
  | ok r => exact process_term_core_searchTerm t fr lim r hc
  | error e => rfl

theorem chunks20Go_flatten (fuel : Nat) :
    ∀ l : List String, l.length < fuel → (chunks20Go fuel l).flatten = l := by
  induction fuel with
  | zero => exact fun l h => absurd h (Nat.not_lt_zero _)
  | succ n ih =>
    intro l h
    cases l with
    | nil => simp [chunks20Go]
    | cons c cs =>
      have hlt : ((c :: cs).drop BATCH_SIZE).length < n := by
        rw [List.length_drop]
        simp only [List.length_cons, BATCH_SIZE]
        simp only [List.length_cons] at h
        omega
      simp only [chunks20Go, List.flatten_cons]
      rw [ih _ hlt, List.take_append_drop]

theorem chunks20_flatten (l : List String) : (chunks20 l).flatten = l :=
  chunks20Go_flatten _ l (Nat.lt_succ_self _)

theorem flatSched_length (p : RunParams) (sched : Sched)
    (hperm : ∀ b, ((sched b).map Prod.fst).Perm b) :
    (flatSched p sched).length = p.terms.length := by
  unfold flatSched
  rw [List.length_flatten, List.map_map]
  have h1 : (chunks20 p.terms).map (List.length ∘ sched) =
      (chunks20 p.terms).map List.length := by
    apply List.map_congr_left
    intro b hb
    have h2 := (hperm b).length_eq
    simpa using h2
  rw [h1, ← List.length_flatten, chunks20_flatten]

theorem smallFold_length (items : List (String × TermResult)) :
    (smallFold items).1.length = items.length := by
  induction items with
  | nil => rfl
  | cons it rest ih =>
    obtain ⟨t, res⟩ := it
    cases res <;> simp [smallFold, ih]

/-- C10: regardless of searchMode and resultLimit, `process_term` is
total and returns exactly one record per term, tagged with the term; so
for any completion schedule covering the batched terms, the streaming
path emits exactly one product record per deduplicated term, and the
non-streaming path collects exactly one record per completion. -/
theorem c10_one_outcome_per_term (p : RunParams) (sched : Sched)
    (hperm : ∀ b, ((sched b).map Prod.fst).Perm b) :
    (streamRecords p sched).length = p.terms.length ∧
      (smallFold (sched p.terms)).1.length = p.terms.length ∧
      ∀ t fr lim, dictGet? (process_term t fr lim).1 "searchTerm" = some (.str t) := by
  refine ⟨?_, ?_, fun t fr lim => process_term_searchTerm t fr lim⟩
  · unfold streamRecords
    rw [List.length_map]
    exact flatSched_length p sched hperm
  · rw [smallFold_length]
    have h2 := (hperm p.terms).length_eq
    simpa using h2

/-- C10 witness: the theorem applied to a two-term run with the
in-order schedule of successful futures. -/
theorem c10_witness :
    (∀ b, ((schedOkNone b).map Prod.fst).Perm b) ∧
      ((streamRecords c10params schedOkNone).length = c10params.terms.length ∧
        (smallFold (schedOkNone c10params.terms)).1.length = c10params.terms.length ∧
        ∀ t fr lim, dictGet? (process_term t fr lim).1 "searchTerm" = some (.str t)) :=
  ⟨fun b => by simpa [schedOkNone, List.map_map, Function.comp_def] using List.Perm.refl b,
   c10_one_outcome_per_term c10params schedOkNone
     (fun b => by simpa [schedOkNone, List.map_map, Function.comp_def] using List.Perm.refl b)⟩

end Markchecker
namespace Markchecker

/-- C9: per-term failures are contained.  An error escaping the body of
`process_term` is converted by its function-level handler into the
generic error record (found = false, generic message); a future that
raises in the streaming loop contributes the not-found record and
nothing else, leaving the fragments of every other completion and the
found counter of the rest of the stream unchanged; the stream always
ends with the completed terminal fragment; and a validated request
returns a response for every schedule — only the pre-fetch validation
checks can fail the endpoint. -/
theorem c9_per_term_failures_contained (p : RunParams) (sched : Sched)
    (pre post : List (String × TermResult)) (t : String) (first : Bool)
    (data : ReqData) (regionInfo : Dict) (st sid : String)
    (hst : data.searchTerm = some st) (hstne : st.isEmpty = false)
    (hsid : data.sessionId = some sid) (hsidne : sid.isEmpty = false)
    (hreg : pyTruthy (dictGet regionInfo "regionId") = true) :
    (∀ fr lim e, process_term_core t fr lim = .error e →
      process_term t fr lim = (errorRecord t, 0)) ∧
      dictGet? (errorRecord t) "found" = some (.bool false) ∧
      dictGet? (errorRecord t) "notFoundMessage" =
        some (.str "Error processing the article. Please try again.") ∧
      streamOutcome (t, .error ()) = (notFoundRecord t, 0) ∧
      emitItems first (pre ++ (t, .error ()) :: post) =
        ((emitItems first pre).1 ++
          ((if first && pre.isEmpty then [] else [[',']]) ++
            renderCh (.obj (notFoundRecord t)) :: (emitItems false post).1),
         (emitItems first pre).2 + (emitItems false post).2) ∧
      (generate_response p sched).getLast? =
        some (footerFrag (streamFoundTotal p sched) (flatSched p sched).length) ∧
      ∃ res, fetch_product (some data) regionInfo sched = .ok res := by
  refine ⟨?_, rfl, rfl, rfl, ?_, ?_, ?_⟩
  · intro fr lim e h
    unfold process_term
    rw [h]
  · rw [emitItems_append]
    simp [emitItems, streamOutcome]
  · rw [generate_response_eq, ← List.cons_append, List.getLast?_concat]
  · unfold fetch_product
    simp only [hst, hsid]
    simp [hstne, hsidne, hreg]
    split
    · exact ⟨_, rfl⟩
    · exact ⟨_, rfl⟩

/-- C9 witness: the containment theorem at a concrete validated request,
a two-term run and a singleton failing completion. -/
theorem c9_witness :
    ((⟨some "a", some "s", .noneV⟩ : ReqData).searchTerm = some "a" ∧
      ("a" : String).isEmpty = false ∧
      (⟨some "a", some "s", .noneV⟩ : ReqData).sessionId = some "s" ∧
      ("s" : String).isEmpty = false ∧
      pyTruthy (dictGet [("regionId", Json.str "1")] "regionId") = true) ∧
      ((∀ fr lim e, process_term_core "x" fr lim = .error e →
        process_term "x" fr lim = (errorRecord "x", 0)) ∧
        dictGet? (errorRecord "x") "found" = some (.bool false) ∧
        dictGet? (errorRecord "x") "notFoundMessage" =
          some (.str "Error processing the article. Please try again.") ∧
        streamOutcome ("x", .error ()) = (notFoundRecord "x", 0) ∧
        emitItems true ([] ++ ("x", .error ()) :: []) =
          ((emitItems true []).1 ++
            ((if true && List.isEmpty ([] : List (String × TermResult)) then [] else [[',']]) ++
              renderCh (.obj (notFoundRecord "x")) :: (emitItems false []).1),
           (emitItems true []).2 + (emitItems false []).2) ∧
        (generate_response c10params schedOkNone).getLast? =
          some (footerFrag (streamFoundTotal c10params schedOkNone)
            (flatSched c10params schedOkNone).length) ∧
        ∃ res, fetch_product (some ⟨some "a", some "s", .noneV⟩)
          [("regionId", Json.str "1")] schedOkNone = .ok res) :=
  ⟨⟨rfl, rfl, rfl, rfl, rfl⟩,
   c9_per_term_failures_contained c10params schedOkNone [] [] "x" true
     ⟨some "a", some "s", .noneV⟩ [("regionId", Json.str "1")] "a" "s" rfl rfl rfl rfl rfl⟩

end Markchecker
namespace Markchecker

set_option maxRecDepth 10000 in
/-- C2 counterexample: the claim says the assembler interleaves progress
fragments carrying `processed` counters at checkpoints and batch
boundaries.  In a 45-term run no emitted fragment contains the quoted
key `"processed"` at all: the source's generate_response yields only the
opening fragment, the per-product fragments with bare comma separators,
and one terminal fragment (whose counter key is `"total_processed"`). -/
theorem c2_counterexample :
    ((generate_response params45 schedErr).filter
      (fun f => containsSub processedKeyPat f)).length = 0 := by
  decide

set_option maxRecDepth 10000 in
/-- C2 (amended): with 45 terms and batch size 20 exactly 3 batches are
produced, and the streamed output is exactly the opening fragment, the
45 outcome fragments separated by bare commas, and the single terminal
fragment, whose `total_processed` field is 45; no progress fragments are
interleaved. -/
theorem c2_amended :
    totalBatches params45.terms.length = 3 ∧
      (chunks20 params45.terms).length = 3 ∧
      generate_response params45 schedErr =
        headerFrag params45 ::
          (sepJoin ((streamRecords params45 schedErr).map (fun r => renderCh (.obj r))) ++
            [footerFrag 0 45]) ∧
      (flatSched params45 schedErr).length = 45 := by
  refine ⟨by decide, by decide, ?_, by decide⟩
  rw [generate_response_eq,
    show streamFoundTotal params45 schedErr = 0 from by decide,
    show (flatSched params45 schedErr).length = 45 from by decide]

end Markchecker
namespace Markchecker

theorem escStr_id (k : String) (h : escape k.toList = k.toList) : EscStr k.toList k.toList := by
  have h2 := escStr_escape k.toList
  rwa [h] at h2

theorem jmembers_chain (k : String) (v : Json) (fs : List (String × Json))
    (lv r : List Char) (hesc : EscStr k.toList k.toList)
    (hv : JVal v lv) (hr : JMembers fs r) :
    JMembers ((k, v) :: fs)
      ('"' :: (k.toList ++ '"' :: ':' :: ' ' :: (lv ++ ',' :: ' ' :: r))) := by
  have h := JMembers.cons k v k.toList [' '] lv [' '] fs r hesc (by simp [isJsonWs]) hv
    (by simp [isJsonWs]) hr
  simpa [List.append_assoc] using h

theorem jmembers_last (k : String) (v : Json) (lv : List Char)
    (hesc : EscStr k.toList k.toList) (hv : JVal v lv) :
    JMembers [(k, v)] ('"' :: (k.toList ++ '"' :: ':' :: ' ' :: lv)) := by
  have h := JMembers.single k v k.toList [' '] lv hesc (by simp [isJsonWs]) hv
  simpa using h

theorem sepJoin_flatten (fs : List (List Char)) : (sepJoin fs).flatten = joinComma fs := by
  induction fs with
  | nil => rfl
  | cons f fs ih =>
    cases fs with
    | nil => simp [sepJoin, joinComma]
    | cons g gs =>
      simp only [sepJoin, joinComma, List.flatten_cons] at ih ⊢
      rw [ih]
      simp

set_option maxHeartbeats 4000000 in
set_option maxRecDepth 100000 in
/-- C3: the concatenation of every fragment of a streamed run is one
valid JSON document — the object whose members are the echo fields, the
duplicated `status` key (processing, then completed: the later key wins
under `json.loads`), the products array holding the outcome records,
and the totals — whose last `status` binding is "completed" and whose
`total_processed` field equals the number of deduplicated terms. -/
theorem c3_stream_valid_json (p : RunParams) (sched : Sched)
    (hne : p.terms ≠ [])
    (hperm : ∀ b, ((sched b).map Prod.fst).Perm b) :
    JVal (.obj (streamDocFields p sched)) ((generate_response p sched).flatten) ∧
      dictGetLast? (streamDocFields p sched) "status" = some (.str "completed") ∧
      dictGetLast? (streamDocFields p sched) "total_processed" =
        some (.num (p.terms.length : Int)) := by
  have hflat : (flatSched p sched).length = p.terms.length := flatSched_length p sched hperm
  have hlen : (streamRecords p sched).length = p.terms.length := by
    unfold streamRecords
    rw [List.length_map]
    exact hflat
  refine ⟨?_, ?_, ?_⟩
  · obtain ⟨r, rs, hrec⟩ : ∃ r rs, streamRecords p sched = r :: rs := by
      cases hrec : streamRecords p sched with
      | nil =>
        rw [hrec] at hlen
        exact absurd hlen.symm (by simpa using hne)
      | cons r rs => exact ⟨r, rs, rfl⟩
    have he : JElems ((r :: rs).map .obj)
        (joinComma ((r :: rs).map (fun d => renderCh (.obj d)))) := by
      have h0 := jelems_joinComma (.obj r) (rs.map .obj)
      simpa [List.map_map, Function.comp_def] using h0
    have hprod : JVal (.arr ((r :: rs).map .obj))
        ('[' :: (joinComma ((r :: rs).map (fun d => renderCh (.obj d))) ++ [']'])) :=
      JVal.arrCons _ _ he
    have hm13 := jmembers_last "status" (.str "completed") (renderCh (.str "completed"))
      (escStr_id _ rfl) (jval_renderCh _)
    have hm12 := jmembers_chain "total_processed" (.num ((flatSched p sched).length : Int)) _
      (toString ((flatSched p sched).length : Int)).toList _ (escStr_id _ rfl)
      (JVal.num _) hm13
    have hm11 := jmembers_chain "total_found" (.num ((streamFoundTotal p sched) : Int)) _
      (toString ((streamFoundTotal p sched) : Int)).toList _ (escStr_id _ rfl)
      (JVal.num _) hm12
    have hm10 := jmembers_chain "products" (.arr ((r :: rs).map .obj)) _
      ('[' :: (joinComma ((r :: rs).map (fun d => renderCh (.obj d))) ++ [']'])) _
      (escStr_id _ rfl) hprod hm11
    have hm9 := jmembers_chain "total_batches" (.num ((totalBatches p.terms.length) : Int)) _
      (toString ((totalBatches p.terms.length) : Int)).toList _ (escStr_id _ rfl)
      (JVal.num _) hm10
    have hm8 := jmembers_chain "total_terms" (.num ((p.terms.length) : Int)) _
      (toString ((p.terms.length) : Int)).toList _ (escStr_id _ rfl)
      (JVal.num _) hm9
    have hm7 := jmembers_chain "status" (.str "processing") _
      (renderCh (.str "processing")) _ (escStr_id _ rfl) (jval_renderCh _) hm8
    have hm6 := jmembers_chain "contains_ea_codes" (.bool p.eaFlag) _
      (renderCh (.bool p.eaFlag)) _ (escStr_id _ rfl) (jval_renderCh _) hm7
    have hm5 := jmembers_chain "duplicate_count" (.num ((p.dupCount) : Int)) _
      (toString ((p.dupCount) : Int)).toList _ (escStr_id _ rfl) (JVal.num _) hm6
    have hm4 := jmembers_chain "parsed_terms" (.arr (p.terms.map .str)) _
      (renderCh (.arr (p.terms.map .str))) _ (escStr_id _ rfl) (jval_renderCh _) hm5
    have hm3 := jmembers_chain "search_term" (.str p.searchTerm) _
      (renderCh (.str p.searchTerm)) _ (escStr_id _ rfl) (jval_renderCh _) hm4
    have hm2 := jmembers_chain "region_info" p.regionInfoJ _
      (renderCh p.regionInfoJ) _ (escStr_id _ rfl) (jval_renderCh _) hm3
    have hm1 := jmembers_chain "region_name" p.regionNameJ _
      (renderCh p.regionNameJ) _ (escStr_id _ rfl) (jval_renderCh _) hm2
    have hdoc := JVal.objCons _ _ hm1
    unfold streamDocFields
    rw [generate_response_eq, hrec]
    simp only [List.flatten_cons, List.flatten_append, List.flatten_nil, List.append_nil]
    rw [sepJoin_flatten]
    convert hdoc using 1
    all_goals simp only [headerFrag, footerFrag, List.cons_append, List.nil_append,
      List.append_assoc]
    all_goals rfl
  · rfl
  · unfold streamDocFields dictGetLast?
    rw [hflat]
    rfl

/-- C3 witness: the serialization theorem at a concrete two-term run
with the in-order all-success schedule. -/
theorem c3_witness :
    (c10params.terms ≠ []) ∧
      (∀ b, ((schedOkNone b).map Prod.fst).Perm b) ∧
      (JVal (.obj (streamDocFields c10params schedOkNone))
          ((generate_response c10params schedOkNone).flatten) ∧
        dictGetLast? (streamDocFields c10params schedOkNone) "status" =
          some (.str "completed") ∧
        dictGetLast? (streamDocFields c10params schedOkNone) "total_processed" =
          some (.num (c10params.terms.length : Int))) :=
  ⟨by decide,
   fun b => by simpa [schedOkNone, List.map_map, Function.comp_def] using List.Perm.refl b,
   c3_stream_valid_json c10params schedOkNone (by decide)
     (fun b => by simpa [schedOkNone, List.map_map, Function.comp_def] using List.Perm.refl b)⟩

end Markchecker
